import Mathlib

/-!
Shallow embedding of the data-collection pipeline (task assembler
`assemble_master.py` and PDF finalizer `finalize_pdfs_offline.py`).

Conventions of the embedding:
* CSV cells of the manifest tables are `String`s; pandas string comparison
  (Python code-point lexicographic order) is `String`'s order.
* `df.sort_values` is modelled by a structural insertion sort with the corresponding
  boolean comparator.  pandas' default quicksort is deterministic but not
  stable; none of the properties below depends on the order of key-ties.
* `df.groupby(keys)` (with pandas' default `sort=True`) is modelled by
  listing the distinct keys in ascending order and attaching to each key
  the sub-list of rows with that key, in their original order.
* Floating point numbers of the finalizer (sleep intervals) are modelled
  by `ℚ`; the Python literal `0.6` is `3/5`.
-/

set_option maxRecDepth 100000

namespace DataCollection

/-- Lexicographic code-point order on char lists (Python `str` comparison:
shorter prefix first, otherwise first differing code point decides). -/
def lexLt : List Char → List Char → Bool
  | [], [] => false
  | [], _ :: _ => true
  | _ :: _, [] => false
  | a :: as, b :: bs =>
    if a.toNat < b.toNat then true
    else if b.toNat < a.toNat then false
    else lexLt as bs

/-- Python `a < b` on strings. -/
def strLt (a b : String) : Bool := lexLt a.data b.data

/-- Python `a <= b` on strings (total order: `a <= b ↔ ¬ (b < a)`). -/
def strLe (a b : String) : Bool := !(strLt b a)

/-- A sorting function modelling `df.sort_values`: structural insertion
sort with a boolean comparator.  pandas' default quicksort is likewise
deterministic; the two can differ only in the relative order of key-ties,
on which no property below depends. -/
def orderedInsert (le : α → α → Bool) (a : α) : List α → List α
  | [] => [a]
  | b :: l => if le a b then a :: b :: l else b :: orderedInsert le a l

/-- See `orderedInsert`. -/
def sortBy (le : α → α → Bool) : List α → List α
  | [] => []
  | a :: l => orderedInsert le a (sortBy le l)

/-- One row of a manifest CSV (`manifest_ab.csv` / `manifest_two.csv`).
`Period` is optional in the source (`r.get("Period", "")`); a missing
column is represented by the empty string. -/
structure MRow where
  Company : String
  Ticker : String
  Sector : String
  Form : String
  Period : String
  FilingDate : String
  Accession : String
  EdgarIndexURL : String
  OpenAsHTMLURL : String
deriving DecidableEq

/-- One row of the master tasks table, with the 35 columns produced by
`assemble_master.py` (the dict built by `make_row_single`/`make_row_pair`). -/
structure TaskRow where
  TaskID : String
  Status : String
  TaskerName : String
  Category : String
  Prompt : String
  Answer : String
  SupportingFacts : String
  QA_Reviewer : String
  QA_Approval : String
  QA_Final_Approval : String
  Notes : String
  Company_1 : String
  Ticker_1 : String
  Sector_1 : String
  Form_1 : String
  Period_1 : String
  FilingDate_1 : String
  Company_2 : String
  Ticker_2 : String
  Sector_2 : String
  Form_2 : String
  Period_2 : String
  FilingDate_2 : String
  Accession_1 : String
  EdgarIndexURL_1 : String
  OpenAsHTMLURL_1 : String
  PDF_filename_1 : String
  PDF_checksum_1 : String
  PDF_link_1 : String
  Accession_2 : String
  EdgarIndexURL_2 : String
  OpenAsHTMLURL_2 : String
  PDF_filename_2 : String
  PDF_checksum_2 : String
  PDF_link_2 : String
deriving DecidableEq

/-- The fixed column order of the output CSV (`COLUMNS` in
`assemble_master.py`). -/
def COLUMNS : List String := [
  "TaskID","Status","TaskerName","Category","Prompt","Answer","SupportingFacts",
  "QA_Reviewer","QA_Approval","QA_Final_Approval","Notes",
  "Company_1","Ticker_1","Sector_1","Form_1","Period_1","FilingDate_1",
  "Company_2","Ticker_2","Sector_2","Form_2","Period_2","FilingDate_2",
  "Accession_1","EdgarIndexURL_1","OpenAsHTMLURL_1","PDF_filename_1","PDF_checksum_1","PDF_link_1",
  "Accession_2","EdgarIndexURL_2","OpenAsHTMLURL_2","PDF_filename_2","PDF_checksum_2","PDF_link_2"]

/-- The cells of a task row, in `COLUMNS` order (the row as written by
`DataFrame(all_rows, columns=COLUMNS).to_csv`). -/
def toCells (r : TaskRow) : List String := [
  r.TaskID, r.Status, r.TaskerName, r.Category, r.Prompt, r.Answer, r.SupportingFacts,
  r.QA_Reviewer, r.QA_Approval, r.QA_Final_Approval, r.Notes,
  r.Company_1, r.Ticker_1, r.Sector_1, r.Form_1, r.Period_1, r.FilingDate_1,
  r.Company_2, r.Ticker_2, r.Sector_2, r.Form_2, r.Period_2, r.FilingDate_2,
  r.Accession_1, r.EdgarIndexURL_1, r.OpenAsHTMLURL_1, r.PDF_filename_1, r.PDF_checksum_1, r.PDF_link_1,
  r.Accession_2, r.EdgarIndexURL_2, r.OpenAsHTMLURL_2, r.PDF_filename_2, r.PDF_checksum_2, r.PDF_link_2]

/-- The cell matrix of the written CSV: the header line followed by one
line of cells per task row.  The byte content of the file is a function
of this matrix. -/
def writeCsv (rows : List TaskRow) : List (List String) :=
  COLUMNS :: rows.map toCells

/-- `make_row_single(task_id, cat, r)`. -/
def make_row_single (task_id : String) (cat : String) (r : MRow) : TaskRow where
  TaskID := task_id
  Status := ""
  TaskerName := ""
  Category := cat
  Prompt := ""
  Answer := ""
  SupportingFacts := ""
  QA_Reviewer := ""
  QA_Approval := ""
  QA_Final_Approval := ""
  Notes := ""
  Company_1 := r.Company
  Ticker_1 := r.Ticker
  Sector_1 := r.Sector
  Form_1 := r.Form
  Period_1 := r.Period
  FilingDate_1 := r.FilingDate
  Company_2 := ""
  Ticker_2 := ""
  Sector_2 := ""
  Form_2 := ""
  Period_2 := ""
  FilingDate_2 := ""
  Accession_1 := r.Accession
  EdgarIndexURL_1 := r.EdgarIndexURL
  OpenAsHTMLURL_1 := r.OpenAsHTMLURL
  PDF_filename_1 := ""
  PDF_checksum_1 := ""
  PDF_link_1 := ""
  Accession_2 := ""
  EdgarIndexURL_2 := ""
  OpenAsHTMLURL_2 := ""
  PDF_filename_2 := ""
  PDF_checksum_2 := ""
  PDF_link_2 := ""

/-- `make_row_pair(task_id, cat_label, r1, r2)`. -/
def make_row_pair (task_id : String) (cat_label : String) (r1 r2 : MRow) : TaskRow where
  TaskID := task_id
  Status := ""
  TaskerName := ""
  Category := cat_label
  Prompt := ""
  Answer := ""
  SupportingFacts := ""
  QA_Reviewer := ""
  QA_Approval := ""
  QA_Final_Approval := ""
  Notes := ""
  Company_1 := r1.Company
  Ticker_1 := r1.Ticker
  Sector_1 := r1.Sector
  Form_1 := r1.Form
  Period_1 := r1.Period
  FilingDate_1 := r1.FilingDate
  Company_2 := r2.Company
  Ticker_2 := r2.Ticker
  Sector_2 := r2.Sector
  Form_2 := r2.Form
  Period_2 := r2.Period
  FilingDate_2 := r2.FilingDate
  Accession_1 := r1.Accession
  EdgarIndexURL_1 := r1.EdgarIndexURL
  OpenAsHTMLURL_1 := r1.OpenAsHTMLURL
  PDF_filename_1 := ""
  PDF_checksum_1 := ""
  PDF_link_1 := ""
  Accession_2 := r2.Accession
  EdgarIndexURL_2 := r2.EdgarIndexURL
  OpenAsHTMLURL_2 := r2.OpenAsHTMLURL
  PDF_filename_2 := ""
  PDF_checksum_2 := ""
  PDF_link_2 := ""

/-- `df["FilingDate"].astype(str).str[:4]` — the year of an ISO date string. -/
def yearOf (s : String) : String := s.take 4

/-- `df.groupby(key)` with pandas' default `sort=True`: the distinct key
values in ascending order, each with the rows carrying it (original order). -/
def groupBy (key : MRow → String) (l : List MRow) : List (String × List MRow) :=
  (sortBy strLe ((l.map key).dedup)).map
    (fun k => (k, l.filter (fun r => decide (key r = k))))

/-- Boolean comparator for (Company, Ticker, Sector) triples, lexicographic. -/
def le3 (a b : String × String × String) : Bool :=
  if a.1 ≠ b.1 then strLt a.1 b.1
  else if a.2.1 ≠ b.2.1 then strLt a.2.1 b.2.1
  else strLe a.2.2 b.2.2

/-- `df.groupby(["Company","Ticker","Sector"])`. -/
def groupBy3 (l : List MRow) : List ((String × String × String) × List MRow) :=
  (sortBy le3 ((l.map (fun r => (r.Company, r.Ticker, r.Sector))).dedup)).map
    (fun k => (k, l.filter (fun r => decide ((r.Company, r.Ticker, r.Sector) = k))))

/-- `grp.sort_values("FilingDate", ascending=False)`. -/
def sortByDateDesc (l : List MRow) : List MRow :=
  sortBy (fun a b => strLe b.FilingDate a.FilingDate) l

/-- `f"{i:02d}"` — decimal representation of `i`, zero-padded to a minimum
width of two characters. -/
def pad2 (i : Nat) : String :=
  if i < 10 then "0" ++ Nat.repr i else Nat.repr i

/-- The decimal digit characters of `n`, most significant first: the
mathematical content of `Nat.toDigitsCore 10` (used to reason about
`Nat.repr` in the TaskID lemmas). -/
def decList (n : Nat) : List Char :=
  if h : n < 10 then [Nat.digitChar n]
  else
    have : n / 10 < n := Nat.div_lt_self (by omega) (by omega)
    decList (n / 10) ++ [Nat.digitChar (n % 10)]

/-- The claimed TaskID sequence of one category: `pre` followed by the
zero-padded indices `01, 02, …, n`. -/
def mkIds (pre : String) (n : Nat) : List String :=
  (List.range n).map fun i => pre ++ pad2 (i + 1)

/-- The loop body of `pick_yoy` before ID assignment: for each
(Company, Ticker, Sector) group of the TWO manifest having at least two
distinct filing years, the tuple `(sector, company, r1, r2)` where `r1` is
the most recent filing of the group and `r2` the most recent filing whose
year differs from `r1`'s; groups with no such `r2` are dropped. -/
def yoyCandidates (two : List MRow) : List (String × String × MRow × MRow) :=
  (groupBy3 two).filterMap fun kg =>
    let grp := kg.2
    let years := (grp.map (fun r => yearOf r.FilingDate)).dedup
    if years.length < 2 then none
    else
      let sorted := sortByDateDesc grp
      match sorted.head? with
      | none => none
      | some r1 =>
        match (sorted.filter
            (fun r => decide (yearOf r.FilingDate ≠ yearOf r1.FilingDate))).head? with
        | none => none
        | some r2 => some (kg.1.2.2, kg.1.1, r1, r2)

/-- Comparator for the deterministic `out.sort(key=lambda x: (x[0], x[1]))`
in `pick_yoy`: (sector, company) lexicographic. -/
def yoySortLe (a b : String × String × MRow × MRow) : Bool :=
  if a.1 ≠ b.1 then strLt a.1 b.1 else strLe a.2.1 b.2.1

/-- `pick_yoy(two_df, k)`. -/
def pick_yoy (two : List MRow) (k : Nat) : List TaskRow :=
  let out := sortBy yoySortLe (yoyCandidates two)
  (out.take k).mapIdx fun i t =>
    make_row_pair ("C_YOY_" ++ pad2 (i + 1)) "C (YoY)" t.2.2.1 t.2.2.2

/-- Consecutive non-overlapping pairs `(rows[0],rows[1]), (rows[2],rows[3]), …`,
dropping an unpaired trailing row (`for i in range(0, len(rows)-1, 2)`). -/
def pairsOf : List MRow → List (MRow × MRow)
  | a :: b :: rest => (a, b) :: pairsOf rest
  | _ => []

/-- Comparator for `g.sort_values("Company")`. -/
def companyLe (a b : MRow) : Bool := strLe a.Company b.Company

/-- Comparator for `g.sort_values(["Year","Company"])` (Year = first four
characters of FilingDate). -/
def yearCompanyLe (a b : MRow) : Bool :=
  if yearOf a.FilingDate ≠ yearOf b.FilingDate
  then strLt (yearOf a.FilingDate) (yearOf b.FilingDate)
  else strLe a.Company b.Company

/-- Stage 1 of `pick_peers`: within each sector group (ascending sector),
within each filing-year sub-group (ascending year), sort by Company and
pair consecutive rows, in iteration order. -/
def stage1Pairs (df : List MRow) : List (MRow × MRow) :=
  (groupBy (fun r => r.Sector) df).flatMap fun sg =>
    (groupBy (fun r => yearOf r.FilingDate) sg.2).flatMap fun yg =>
      pairsOf (sortBy companyLe yg.2)

/-- Stage 2 of `pick_peers`: within each sector group, sort by
(Year, Company) and pair consecutive rows. -/
def stage2Pairs (df : List MRow) : List (MRow × MRow) :=
  (groupBy (fun r => r.Sector) df).flatMap fun sg =>
    pairsOf (sortBy yearCompanyLe sg.2)

/-- A `C (Peer)` row with its final TaskID (the `row["TaskID"] = f"C_PEER_{j:02d}"`
relabelling applied to the row built with placeholder ID `"PENDING"`). -/
def mkPeerRow (j : Nat) (p : MRow × MRow) : TaskRow :=
  make_row_pair ("C_PEER_" ++ pad2 j) "C (Peer)" p.1 p.2

/-- `pick_peers(ab_df, k, used_companies)`.

The imperative control flow of the source is:
rows are filtered against `used_companies`, then Stage-1 pairs are appended
one at a time with an early return (IDs assigned, list returned) as soon as
`len(out) >= k`; if Stage 1 ends with `len(out) < k`, Stage-2 pairs (over
the same filtered rows, ignoring year) are appended with the same early
return; finally IDs are assigned and `out[:k]` is returned.

Functionally: since the early-return check runs after each append, Stage 1
returns `take (max k 1)` of its pair stream as soon as that many exist (for
`k = 0` the first append already satisfies `len(out) >= 0`, so one pair is
returned); otherwise, if `len(out) < k`, the result is the first `k` of the
Stage-1 stream followed by the Stage-2 stream; otherwise (`k = 0` and no
Stage-1 pair) the result is empty. -/
def pick_peers (ab : List MRow) (k : Nat) (used : List (String × String)) : List TaskRow :=
  let df := ab.filter (fun r => decide ((r.Company, r.Ticker) ∉ used))
  let s1 := stage1Pairs df
  if max k 1 ≤ s1.length then
    (s1.take (max k 1)).mapIdx fun i p => mkPeerRow (i + 1) p
  else if s1.length < k then
    ((s1 ++ stage2Pairs df).take k).mapIdx fun i p => mkPeerRow (i + 1) p
  else
    (s1.take k).mapIdx fun i p => mkPeerRow (i + 1) p

/-- Comparator for the A/B selection sort
`ab.sort_values(["Sector","Company","FilingDate"], ascending=[True, True, False])`. -/
def abLe (a b : MRow) : Bool :=
  if a.Sector ≠ b.Sector then strLt a.Sector b.Sector
  else if a.Company ≠ b.Company then strLt a.Company b.Company
  else strLe b.FilingDate a.FilingDate

/-- `assemble(...)` — the in-memory list of task rows written to the output
CSV (file I/O aside): A rows, then B rows, then C (YoY), then C (Peer). -/
def assemble (ab two : List MRow) (a_count b_count c_yoy_count c_peer_count : Nat) :
    List TaskRow :=
  let ab_sorted := sortBy abLe ab
  let a_rows := (ab_sorted.take a_count).mapIdx fun i r =>
    make_row_single ("A_" ++ pad2 (i + 1)) "A" r
  let b_rows := ((ab_sorted.drop a_count).take b_count).mapIdx fun i r =>
    make_row_single ("B_" ++ pad2 (i + 1)) "B" r
  let yoy_rows := pick_yoy two c_yoy_count
  let used_companies := yoy_rows.map fun r => (r.Company_1, r.Ticker_1)
  let peer_rows := pick_peers ab_sorted c_peer_count used_companies
  a_rows ++ b_rows ++ yoy_rows ++ peer_rows

/-! ### PDF finalizer (`finalize_pdfs_offline.py`)

A pandas cell read from the tasks CSV is either a string or the float NaN
(pandas renders empty cells of a present column as NaN); cells are modelled
as `Option String` with `none` for NaN. -/

/-- Python `\s` whitespace (ASCII range). -/
def pyWs (c : Char) : Bool :=
  decide (c = ' ' ∨ c = '\t' ∨ c = '\n' ∨ c = '\r' ∨ c = '\x0b' ∨ c = '\x0c')

/-- Python `str.strip()`: remove leading and trailing whitespace. -/
def pyStrip (s : String) : String :=
  ⟨(s.data.dropWhile pyWs).reverse.dropWhile pyWs |>.reverse⟩

/-- The path-unsafe characters removed by `_sanitize`
(regex class `[\\/:*?"<>|]`). -/
def unsafeChar (c : Char) : Bool :=
  decide (c = '\\' ∨ c = '/' ∨ c = ':' ∨ c = '*' ∨ c = '?' ∨ c = '\"' ∨
    c = '<' ∨ c = '>' ∨ c = '|')

/-- The string part of `_sanitize`: `str(value).strip()`, then
`re.sub(r"\s+", "", ...)` (delete every whitespace character), then
`re.sub(r"[\\/:*?\"<>|]", "", ...)[:150]`. -/
def sanitizeStr (s : String) : String :=
  let text := pyStrip s
  let text : String := ⟨text.data.filter (fun c => !pyWs c)⟩
  (⟨text.data.filter (fun c => !unsafeChar c)⟩ : String).take 150

/-- `_sanitize(value)`: `None`/NaN becomes the empty string, otherwise the
string is stripped, whitespace- and unsafe-character-filtered, and capped
at 150 characters. -/
def sanitize : Option String → String
  | none => ""
  | some s => sanitizeStr s

/-- `str(x or "")` applied to a pandas cell: NaN is a truthy float whose
string form is `"nan"`; an empty or missing string is falsy and yields
`""`. -/
def pyStrOrEmptyCell : Option String → String
  | none => "nan"
  | some s => s

/-- Python `str.lower()` (ASCII case fold suffices for the `"nan"` test). -/
def pyLower (s : String) : String := ⟨s.data.map Char.toLower⟩

/-- `_clean_url(value)`. -/
def clean_url : Option String → String
  | none => ""
  | some v =>
    let s := pyStrip v
    if s = "" ∨ pyLower s = "nan" then "" else s

/-- The rows of the tasks CSV as read by the finalizer; only the columns it
touches are modelled.  `none` is a NaN cell. -/
structure FinRow where
  TaskID : Option String := none
  OpenAsHTMLURL_1 : Option String := none
  OpenAsHTMLURL_2 : Option String := none
  Ticker_1 : Option String := none
  Ticker_2 : Option String := none
  Form_1 : Option String := none
  Form_2 : Option String := none
  Period_1 : Option String := none
  Period_2 : Option String := none
  FilingDate_1 : Option String := none
  FilingDate_2 : Option String := none
  PDF_filename_1 : Option String := none
  PDF_checksum_1 : Option String := none
  PDF_filename_2 : Option String := none
  PDF_checksum_2 : Option String := none
deriving DecidableEq

/-- `row.get(f"Ticker_{idx}")` etc.: slot access; any index other than 1/2
is an absent column (`None`). -/
def tickerOf (r : FinRow) : Nat → Option String
  | 1 => r.Ticker_1
  | 2 => r.Ticker_2
  | _ => none

def formOf (r : FinRow) : Nat → Option String
  | 1 => r.Form_1
  | 2 => r.Form_2
  | _ => none

def periodOf (r : FinRow) : Nat → Option String
  | 1 => r.Period_1
  | 2 => r.Period_2
  | _ => none

def filingDateOf (r : FinRow) : Nat → Option String
  | 1 => r.FilingDate_1
  | 2 => r.FilingDate_2
  | _ => none

def urlOf (r : FinRow) : Nat → Option String
  | 1 => r.OpenAsHTMLURL_1
  | 2 => r.OpenAsHTMLURL_2
  | _ => none

def pdfFilenameOf (r : FinRow) : Nat → Option String
  | 1 => r.PDF_filename_1
  | 2 => r.PDF_filename_2
  | _ => none

def pdfChecksumOf (r : FinRow) : Nat → Option String
  | 1 => r.PDF_checksum_1
  | 2 => r.PDF_checksum_2
  | _ => none

/-- `"_".join(parts)`. -/
def joinUnderscore : List String → String
  | [] => ""
  | [p] => p
  | p :: rest => p ++ "_" ++ joinUnderscore rest

/-- The `parts` list of `_determine_filename(row, idx)`: the five sanitized
slot fields, with the literal marker `"doc2"` appended when `idx == 2`. -/
def fnParts (row : FinRow) (idx : Nat) : List String :=
  let parts := [sanitize row.TaskID, sanitize (tickerOf row idx),
    sanitize (formOf row idx), sanitize (periodOf row idx),
    sanitize (filingDateOf row idx)]
  if idx = 2 then parts ++ ["doc2"] else parts

/-- `"_".join([p for p in parts if p])` of `_determine_filename`. -/
def joinedParts (row : FinRow) (idx : Nat) : String :=
  joinUnderscore ((fnParts row idx).filter (fun p => decide (p ≠ "")))

/-- `_determine_filename(row, idx)`. -/
def determine_filename (row : FinRow) (idx : Nat) : String :=
  let base := joinedParts row idx
  let base := if base = "" then "row_" ++ Nat.repr idx else base
  base ++ ".pdf"

/-- Result of `_download_html_with_retries`: whether a fetch succeeded, how
many fetch attempts were made, and the sequence of sleep intervals
performed (one after every failed attempt). -/
structure RetryResult where
  ok : Bool
  attempts : Nat
  sleeps : List ℚ
deriving DecidableEq

/-- The loop of `_download_html_with_retries`, with the outcome of each
attempt and the `random.random()` draws supplied by oracles indexed by the
attempt number.  `attempt` is the Python loop variable, `remaining` the
number of iterations left (`max_fetch_retries + 2 - attempt`). -/
def retryGo (outcome : Nat → Bool) (rand : Nat → ℚ) (smin smax : ℚ) :
    Nat → Nat → RetryResult
  | _, 0 => ⟨false, 0, []⟩
  | attempt, remaining + 1 =>
    if outcome attempt then ⟨true, 1, []⟩
    else
      let s := (smin + rand attempt * (smax - smin)) + attempt * (3/5 : ℚ)
      let r := retryGo outcome rand smin smax (attempt + 1) remaining
      ⟨r.ok, r.attempts + 1, s :: r.sleeps⟩

/-- `_download_html_with_retries(session, url, path, sleep_min, sleep_max,
max_fetch_retries)`: `for attempt in range(1, max_fetch_retries + 2)`. -/
def download_html_with_retries (outcome : Nat → Bool) (rand : Nat → ℚ)
    (sleep_min sleep_max : ℚ) (max_fetch_retries : Nat) : RetryResult :=
  retryGo outcome rand sleep_min sleep_max 1 (max_fetch_retries + 1)

/-- The per-(row, slot) outcome of the finalizer's main loop body. -/
inductive SlotAction where
  | skippedNoUrl
  | skippedExisting
  | downloadFailed
  | tooSmall
  | renderFailed
  | done
deriving DecidableEq

/-- Environment oracle for one (row, slot) iteration: state of the HTML
cache, outcome of the (retried) download, size of the cached file, outcome
of the render, and the checksum of the rendered PDF. -/
structure SlotOracle where
  cacheExists : Bool
  downloadOk : Bool
  size : Nat
  renderOk : Bool
  checksum : String
deriving DecidableEq

/-- Result of one (row, slot) iteration: what happened, whether a download
was performed, whether a render was performed, and the new values of the
slot's `PDF_filename` / `PDF_checksum` cells. -/
structure SlotResult where
  action : SlotAction
  downloaded : Bool
  rendered : Bool
  newFilename : Option String
  newChecksum : Option String
deriving DecidableEq

/-- The body of the finalizer's loop for one row and one `doc_idx` slot
(`main`, lines 189–230): skip on empty URL; skip when `--only-missing` is
set and the filename cell is non-blank (`str(row.get(...) or "").strip()`,
where a NaN cell stringifies to `"nan"`); otherwise download if the cache
misses or `--overwrite` is set, fail on tiny HTML, render, and on success
write the generated filename and checksum back into the row's cells. -/
def process_slot (only_missing overwrite : Bool) (row : FinRow) (doc_idx : Nat)
    (orc : SlotOracle) : SlotResult :=
  let url := clean_url (urlOf row doc_idx)
  let oldFn := pdfFilenameOf row doc_idx
  let oldCk := pdfChecksumOf row doc_idx
  if url = "" then
    ⟨.skippedNoUrl, false, false, oldFn, oldCk⟩
  else if only_missing ∧ pyStrip (pyStrOrEmptyCell oldFn) ≠ "" then
    ⟨.skippedExisting, false, false, oldFn, oldCk⟩
  else
    let filename := determine_filename row doc_idx
    let need_download := !orc.cacheExists || overwrite
    if need_download ∧ orc.downloadOk = false then
      ⟨.downloadFailed, true, false, oldFn, oldCk⟩
    else if orc.size < 1024 then
      ⟨.tooSmall, need_download, false, oldFn, oldCk⟩
    else if orc.renderOk = false then
      ⟨.renderFailed, need_download, true, oldFn, oldCk⟩
    else
      ⟨.done, need_download, true, some filename, some orc.checksum⟩

/-! ### Availability counts (per-category "actually available" rows) -/

/-- Number of YoY candidates the TWO manifest offers (before the cap). -/
def yoyAvailable (two : List MRow) : Nat := (yoyCandidates two).length

/-- The `(Company_1, Ticker_1)` pairs of the selected YoY rows
(`used_companies` in `assemble`). -/
def used_companies (two : List MRow) (y : Nat) : List (String × String) :=
  (pick_yoy two y).map fun r => (r.Company_1, r.Ticker_1)

/-- Number of peer pairs the algorithm can draw on: Stage-1 pairs plus
Stage-2 pairs over the used-company-filtered rows (Stage 2 re-iterates the
full filtered row set, so pairs may repeat). -/
def peerAvailable (ab : List MRow) (used : List (String × String)) : Nat :=
  let df := ab.filter (fun r => decide ((r.Company, r.Ticker) ∉ used))
  (stage1Pairs df).length + (stage2Pairs df).length

/-! ### Concrete inputs used by witnesses and counterexamples -/

/-- A filing of company Alpha (sector Tech, year 2023). -/
def rowAlpha : MRow :=
  ⟨"Alpha", "ALP", "Tech", "10-K", "FY2023", "2023-05-01", "acc-a", "idx-a", "html-a"⟩

/-- A filing of company Beta (sector Tech, year 2023). -/
def rowBeta : MRow :=
  ⟨"Beta", "BET", "Tech", "10-K", "FY2023", "2023-06-01", "acc-b", "idx-b", "html-b"⟩

/-- 2024 filing of company X. -/
def rowX24 : MRow :=
  ⟨"X Corp", "X", "Energy", "10-K", "FY2024", "2024-11-01", "acc-x4", "idx-x4", "html-x4"⟩

/-- 2023 filing of company X. -/
def rowX23 : MRow :=
  ⟨"X Corp", "X", "Energy", "10-K", "FY2023", "2023-11-01", "acc-x3", "idx-x3", "html-x3"⟩

/-- TWO manifest holding two filings of the same company in two years. -/
def twoEx : List MRow := [rowX24, rowX23]

/-- The YoY task row the assembler builds from `twoEx`. -/
def yoyRowEx : TaskRow := make_row_pair "C_YOY_01" "C (YoY)" rowX24 rowX23

/-- Environment oracle for the C9 examples: cache miss, successful
download, large-enough HTML, successful render. -/
def orcEx : SlotOracle := ⟨false, true, 2048, true, "sha256-ex"⟩

/-- A row whose slot-1 PDF filename is already set. -/
def rowSkip : FinRow :=
  { TaskID := some "A_01", OpenAsHTMLURL_1 := some "https://example.org/a.htm",
    Ticker_1 := some "ALP", Form_1 := some "10-K", FilingDate_1 := some "2023-05-01",
    PDF_filename_1 := some "done.pdf", PDF_checksum_1 := some "oldsum" }

/-- A row whose slot-1 PDF filename cell is a non-empty but whitespace-only
string. -/
def rowBlank : FinRow :=
  { TaskID := some "A_02", OpenAsHTMLURL_1 := some "https://example.org/b.htm",
    Ticker_1 := some "BET", Form_1 := some "10-K", FilingDate_1 := some "2023-06-01",
    PDF_filename_1 := some " ", PDF_checksum_1 := some "oldsum" }

/-- A 160-character field value. -/
def longA : String := ⟨List.replicate 160 'a'⟩

/-- Another 160-character field value. -/
def longB : String := ⟨List.replicate 160 'b'⟩

/-- A row with two over-long name fields. -/
def rowLong : FinRow := { TaskID := some longA, Ticker_1 := some longB }

/-- A row whose name fields are all missing. -/
def rowEmptyFields : FinRow := {}

end DataCollection

namespace DataCollection

/-! ### General lemmas about the sorting model -/

/-- Inserting adds one element. -/
theorem orderedInsert_length (le : α → α → Bool) (a : α) :
    ∀ l, (orderedInsert le a l).length = l.length + 1
  | [] => rfl
  | b :: l => by
    simp only [orderedInsert]
    split
    · rfl
    · simp [orderedInsert_length le a l]

/-- Sorting preserves length. -/
theorem sortBy_length (le : α → α → Bool) : ∀ l : List α, (sortBy le l).length = l.length
  | [] => rfl
  | a :: l => by simp [sortBy, orderedInsert_length, sortBy_length le l]

/-- Insertion produces a permutation. -/
theorem orderedInsert_perm (le : α → α → Bool) (a : α) :
    ∀ l, (orderedInsert le a l).Perm (a :: l)
  | [] => List.Perm.refl _
  | b :: l => by
    simp only [orderedInsert]
    split
    · exact List.Perm.refl _
    · exact ((orderedInsert_perm le a l).cons b).trans (List.Perm.swap a b l)

/-- Sorting produces a permutation. -/
theorem sortBy_perm (le : α → α → Bool) : ∀ l : List α, (sortBy le l).Perm l
  | [] => List.Perm.refl _
  | a :: l => (orderedInsert_perm le a (sortBy le l)).trans ((sortBy_perm le l).cons a)

/-- Sorting preserves membership. -/
theorem mem_sortBy {le : α → α → Bool} {l : List α} {x : α} :
    x ∈ sortBy le l ↔ x ∈ l :=
  (sortBy_perm le l).mem_iff

/-- Inserting into a `Pairwise`-sorted list keeps it sorted, given a total
transitive comparator. -/
theorem pairwise_orderedInsert (le : α → α → Bool)
    (htot : ∀ a b, le a b = true ∨ le b a = true)
    (htrans : ∀ a b c, le a b = true → le b c = true → le a c = true) (a : α) :
    ∀ l, l.Pairwise (fun x y => le x y = true) →
      (orderedInsert le a l).Pairwise (fun x y => le x y = true)
  | [], _ => by simp [orderedInsert]
  | b :: l, hp => by
    simp only [orderedInsert]
    split
    case isTrue hab =>
      refine List.Pairwise.cons ?_ hp
      intro y hy
      rcases List.mem_cons.mp hy with rfl | hy
      · exact hab
      · exact htrans a b y hab (List.rel_of_pairwise_cons hp hy)
    case isFalse hab =>
      have hba : le b a = true := by
        rcases htot a b with h | h
        · exact absurd h hab
        · exact h
      obtain ⟨hb, hl⟩ := List.pairwise_cons.mp hp
      refine List.pairwise_cons.mpr ⟨?_, pairwise_orderedInsert le htot htrans a l hl⟩
      intro y hy
      rcases List.mem_cons.mp ((orderedInsert_perm le a l).mem_iff.mp hy) with rfl | h
      · exact hba
      · exact hb y h

/-- The sorted list is `Pairwise`-ordered, given a total transitive
comparator. -/
theorem pairwise_sortBy (le : α → α → Bool)
    (htot : ∀ a b, le a b = true ∨ le b a = true)
    (htrans : ∀ a b c, le a b = true → le b c = true → le a c = true) :
    ∀ l : List α, (sortBy le l).Pairwise (fun x y => le x y = true)
  | [] => List.Pairwise.nil
  | a :: l => pairwise_orderedInsert le htot htrans a _ (pairwise_sortBy le htot htrans l)

/-! ### The code-point string order is a total preorder -/

/-- Chars with equal code points are equal. -/
theorem char_eq_of_toNat_eq {a b : Char} (h : a.toNat = b.toNat) : a = b :=
  Char.ext (UInt32.val_injective (Fin.ext h))

/-- `lexLt` is irreflexive. -/
theorem lexLt_irrefl : ∀ l : List Char, lexLt l l = false
  | [] => rfl
  | a :: as => by simp [lexLt, lexLt_irrefl as]

/-- Unfolding of `lexLt` on two non-empty lists. -/
theorem lexLt_cons_iff (a b : Char) (as bs : List Char) :
    lexLt (a :: as) (b :: bs) = true ↔
      a.toNat < b.toNat ∨ (a.toNat = b.toNat ∧ lexLt as bs = true) := by
  simp only [lexLt]
  split_ifs with h1 h2
  · simp [h1]
  · have hne : ¬ a.toNat = b.toNat := by omega
    simp [h1, hne]
  · have heq : a.toNat = b.toNat := by omega
    simp [h1, heq]

/-- `lexLt` is asymmetric. -/
theorem lexLt_asymm : ∀ a b : List Char, lexLt a b = true → lexLt b a = false
  | [], [], h => by simp [lexLt] at h
  | [], _ :: _, _ => rfl
  | _ :: _, [], h => by simp [lexLt] at h
  | a :: as, b :: bs, h => by
    rw [lexLt_cons_iff] at h
    rcases h with h | ⟨he, hr⟩
    · simp only [lexLt]
      rw [if_neg (show ¬ b.toNat < a.toNat by omega), if_pos h]
    · simp only [lexLt]
      rw [if_neg (show ¬ b.toNat < a.toNat by omega),
        if_neg (show ¬ a.toNat < b.toNat by omega)]
      exact lexLt_asymm as bs hr

/-- `lexLt` is trichotomous. -/
theorem lexLt_trichotomy : ∀ a b : List Char, lexLt a b = true ∨ a = b ∨ lexLt b a = true
  | [], [] => Or.inr (Or.inl rfl)
  | [], _ :: _ => Or.inl rfl
  | _ :: _, [] => Or.inr (Or.inr rfl)
  | a :: as, b :: bs => by
    by_cases h1 : a.toNat < b.toNat
    · exact Or.inl ((lexLt_cons_iff ..).mpr (Or.inl h1))
    · by_cases h2 : b.toNat < a.toNat
      · exact Or.inr (Or.inr ((lexLt_cons_iff ..).mpr (Or.inl h2)))
      · have hab : a = b := char_eq_of_toNat_eq (by omega)
        subst hab
        rcases lexLt_trichotomy as bs with h | h | h
        · exact Or.inl ((lexLt_cons_iff ..).mpr (Or.inr ⟨rfl, h⟩))
        · exact Or.inr (Or.inl (by rw [h]))
        · exact Or.inr (Or.inr ((lexLt_cons_iff ..).mpr (Or.inr ⟨rfl, h⟩)))

/-- `lexLt` is transitive. -/
theorem lexLt_trans : ∀ a b c : List Char,
    lexLt a b = true → lexLt b c = true → lexLt a c = true
  | [], [], _, h1, _ => by simp [lexLt] at h1
  | [], _ :: _, [], _, h2 => by simp [lexLt] at h2
  | [], _ :: _, _ :: _, _, _ => rfl
  | _ :: _, [], _, h1, _ => by simp [lexLt] at h1
  | _ :: _, _ :: _, [], _, h2 => by simp [lexLt] at h2
  | a :: as, b :: bs, c :: cs, h1, h2 => by
    rw [lexLt_cons_iff] at h1 h2 ⊢
    rcases h1 with h1 | ⟨h1e, h1r⟩
    · rcases h2 with h2 | ⟨h2e, h2r⟩
      · exact Or.inl (by omega)
      · exact Or.inl (by omega)
    · rcases h2 with h2 | ⟨h2e, h2r⟩
      · exact Or.inl (by omega)
      · exact Or.inr ⟨by omega, lexLt_trans as bs cs h1r h2r⟩

/-- `strLe` is reflexive. -/
theorem strLe_refl (s : String) : strLe s s = true := by
  simp [strLe, strLt, lexLt_irrefl]

/-- `strLe` is total. -/
theorem strLe_total (a b : String) : strLe a b = true ∨ strLe b a = true := by
  cases hval : lexLt b.data a.data with
  | false => exact Or.inl (by simp [strLe, strLt, hval])
  | true => exact Or.inr (by simp [strLe, strLt, lexLt_asymm _ _ hval])

/-- `strLe` is transitive. -/
theorem strLe_trans (a b c : String) (h1 : strLe a b = true) (h2 : strLe b c = true) :
    strLe a c = true := by
  have h1f : lexLt b.data a.data = false := by simpa [strLe, strLt] using h1
  have h2f : lexLt c.data b.data = false := by simpa [strLe, strLt] using h2
  have hca : lexLt c.data a.data = false := by
    cases hval : lexLt c.data a.data with
    | false => rfl
    | true =>
      rcases lexLt_trichotomy a.data b.data with h | h | h
      · have hcb := lexLt_trans c.data a.data b.data hval h
        rw [hcb] at h2f
        cases h2f
      · rw [h] at hval
        rw [hval] at h2f
        cases h2f
      · rw [h] at h1f
        cases h1f
  simp [strLe, strLt, hca]

/-! ### C10 — Stage-2 fallback duplicates a Stage-1 peer pair -/

/-- C10: on an AB manifest with a single sector-year pair (Alpha, Beta) and
`peerCount = 2`, Stage 1 yields one pair (fewer than requested) and the
Stage-2 fallback re-pairs the same two companies, so the output contains
two distinct `C (Peer)` rows with the same unordered company pair. -/
theorem C10_stage2_duplicates_pair :
    (stage1Pairs [rowAlpha, rowBeta]).length = 1 ∧ (1 : Nat) < 2 ∧
    ((assemble [rowAlpha, rowBeta] [] 0 0 0 2).map
        (fun r => (r.TaskID, r.Category, r.Company_1, r.Company_2))) =
      [("C_PEER_01", "C (Peer)", "Alpha", "Beta"),
       ("C_PEER_02", "C (Peer)", "Alpha", "Beta")] := by
  decide

/-! ### C8 — output column order (corrected: 35 columns, not 34) -/

/-- C8 counterexample: the header of the written table is `COLUMNS`, which
has 35 entries, not the 34 stated by the claim. -/
theorem C8_cex :
    (writeCsv (assemble [] [] 0 0 0 0)).head? = some COLUMNS ∧
    COLUMNS.length = 35 ∧ COLUMNS.length ≠ 34 := by
  decide

/-- C8 (amended): for every input, the written master table has exactly the
fixed 35-column order enumerated in the spec (TaskID, Status, TaskerName,
Category, Prompt, Answer, SupportingFacts, three QA fields, Notes, then
per-slot Company/Ticker/Sector/Form/Period/FilingDate for both slots, then
per-slot Accession/EdgarIndexURL/OpenAsHTMLURL/PDF_filename/PDF_checksum/
PDF_link for both slots), and every data line has exactly 35 cells. -/
theorem C8_columns (ab two : List MRow) (a b y p : Nat) :
    (writeCsv (assemble ab two a b y p)).head? = some
      ["TaskID","Status","TaskerName","Category","Prompt","Answer","SupportingFacts",
       "QA_Reviewer","QA_Approval","QA_Final_Approval","Notes",
       "Company_1","Ticker_1","Sector_1","Form_1","Period_1","FilingDate_1",
       "Company_2","Ticker_2","Sector_2","Form_2","Period_2","FilingDate_2",
       "Accession_1","EdgarIndexURL_1","OpenAsHTMLURL_1","PDF_filename_1","PDF_checksum_1","PDF_link_1",
       "Accession_2","EdgarIndexURL_2","OpenAsHTMLURL_2","PDF_filename_2","PDF_checksum_2","PDF_link_2"] ∧
    ∀ line ∈ writeCsv (assemble ab two a b y p), line.length = 35 := by
  constructor
  · rfl
  · intro line hline
    rcases List.mem_cons.mp hline with h | h
    · subst h; rfl
    · obtain ⟨r, _, rfl⟩ := List.mem_map.mp h
      rfl

/-! ### C5 — determinism of the assembler -/

/-- C5: the assembler is a pure function of its two input tables and the
four requested counts — the source draws no randomness and iterates pandas
group-bys in sorted key order — so identical inputs yield an identical
cell matrix (hence a byte-identical CSV). -/
theorem C5_deterministic (ab₁ ab₂ two₁ two₂ : List MRow) (a b y p : Nat)
    (hab : ab₁ = ab₂) (htwo : two₁ = two₂) :
    writeCsv (assemble ab₁ two₁ a b y p) = writeCsv (assemble ab₂ two₂ a b y p) := by
  subst hab; subst htwo; rfl

/-- Witness for C5 at a concrete input. -/
theorem C5_witness :
    ([rowAlpha] = [rowAlpha] ∧ (twoEx = twoEx)) ∧
    writeCsv (assemble [rowAlpha] twoEx 1 1 1 1) =
      writeCsv (assemble [rowAlpha] twoEx 1 1 1 1) :=
  ⟨⟨rfl, rfl⟩, C5_deterministic [rowAlpha] [rowAlpha] twoEx twoEx 1 1 1 1 rfl rfl⟩

/-! ### C1 — output row count (corrected: fails for peerCount = 0) -/

/-- C1 counterexample: with all four requested counts 0 and an AB manifest
containing one same-sector same-year pair, the early-return check in
Stage 1 of `pick_peers` fires after the first append (`len(out) >= 0`),
so the output has 1 row although the requested total is 0. -/
theorem C1_cex :
    (assemble [rowAlpha, rowBeta] [] 0 0 0 0).length = 1 ∧
    ¬ ((assemble [rowAlpha, rowBeta] [] 0 0 0 0).length ≤ 0 + 0 + 0 + 0) := by
  decide

/-! ### C9 — only-missing idempotence (corrected: the check is on the
blank-stripped value, so a whitespace-only filename is reprocessed) -/

/-- C9 counterexample: a row whose `PDF_filename_1` is the non-empty string
`" "` is nevertheless downloaded and rendered under `--only-missing`
(the source tests `str(... or "").strip()`), and its filename and checksum
cells are overwritten. -/
theorem C9_cex :
    pdfFilenameOf rowBlank 1 = some " " ∧ some " " ≠ (some "" : Option String) ∧
    (process_slot true false rowBlank 1 orcEx).downloaded = true ∧
    (process_slot true false rowBlank 1 orcEx).rendered = true ∧
    (process_slot true false rowBlank 1 orcEx).newFilename ≠ pdfFilenameOf rowBlank 1 ∧
    (process_slot true false rowBlank 1 orcEx).newChecksum ≠ pdfChecksumOf rowBlank 1 := by
  decide

/-- C9 (amended): under `--only-missing`, every (row, slot) whose
`PDF_filename` cell is non-blank — non-empty after stripping whitespace;
a NaN cell stringifies to `"nan"` and also counts — performs no download
and no render, and its `PDF_filename`/`PDF_checksum` cells are left
unchanged.  Re-running the finalizer in this mode is therefore idempotent
on such slots. -/
theorem C9_only_missing_skip (ov : Bool) (row : FinRow) (doc_idx : Nat)
    (orc : SlotOracle)
    (h : pyStrip (pyStrOrEmptyCell (pdfFilenameOf row doc_idx)) ≠ "") :
    (process_slot true ov row doc_idx orc).downloaded = false ∧
    (process_slot true ov row doc_idx orc).rendered = false ∧
    (process_slot true ov row doc_idx orc).newFilename = pdfFilenameOf row doc_idx ∧
    (process_slot true ov row doc_idx orc).newChecksum = pdfChecksumOf row doc_idx := by
  unfold process_slot
  by_cases hu : clean_url (urlOf row doc_idx) = "" <;> simp [hu, h]

/-- Witness for C9 at a concrete row already carrying a filename. -/
theorem C9_witness :
    pyStrip (pyStrOrEmptyCell (pdfFilenameOf rowSkip 1)) ≠ "" ∧
    ((process_slot true false rowSkip 1 orcEx).downloaded = false ∧
     (process_slot true false rowSkip 1 orcEx).rendered = false ∧
     (process_slot true false rowSkip 1 orcEx).newFilename = pdfFilenameOf rowSkip 1 ∧
     (process_slot true false rowSkip 1 orcEx).newChecksum = pdfChecksumOf rowSkip 1) :=
  ⟨by decide, C9_only_missing_skip false rowSkip 1 orcEx (by decide)⟩

/-! ### C7 — filename derivation (corrected: only each field is capped, the
whole name is not; the fallback is slot-based, and slot 2 never falls back) -/

/-- C7 counterexample: with two 160-character fields the derived filename
has 305 characters — each field is individually capped at 150, but the
concatenation is not, so the name does not respect `cap + extension`.
Moreover, with all fields empty, slot 1 of any row yields the constant
name `row_1.pdf` (the fallback encodes the slot index, not the row index,
since `_determine_filename` is not given the row position), and slot 2
yields `doc2.pdf` (the always-present `doc2` marker prevents any
fallback). -/
theorem C7_cex :
    (determine_filename rowLong 1).length = 305 ∧
    ¬ ((305 : Nat) ≤ 150 + ".pdf".length) ∧
    determine_filename rowEmptyFields 1 = "row_1.pdf" ∧
    determine_filename rowEmptyFields 2 = "doc2.pdf" := by
  decide

/-- The characters of a sanitized string: a 150-truncation of the doubly
filtered stripped input. -/
theorem sanitizeStr_data (s : String) :
    (sanitizeStr s).data = (((pyStrip s).data.filter (fun c => !pyWs c)).filter
      (fun c => !unsafeChar c)).take 150 := by
  simp only [sanitizeStr]
  rw [String.data_take]

/-- A string's length is the length of its character list. -/
theorem string_length_eq_data (s : String) : s.length = s.data.length := by
  cases s with
  | mk l => rfl

/-- Each sanitized field has at most 150 characters (`[:150]`). -/
theorem sanitizeStr_length_le (s : String) : (sanitizeStr s).length ≤ 150 := by
  rw [string_length_eq_data, sanitizeStr_data]
  simp

/-- Each sanitized cell has at most 150 characters. -/
theorem sanitize_length_le (v : Option String) : (sanitize v).length ≤ 150 := by
  cases v with
  | none => simp [sanitize, String.length]
  | some s => exact sanitizeStr_length_le s

/-- Characters surviving `_sanitize` are neither path-unsafe nor
whitespace. -/
theorem mem_sanitizeStr (s : String) (c : Char) (hc : c ∈ (sanitizeStr s).data) :
    unsafeChar c = false ∧ pyWs c = false := by
  rw [sanitizeStr_data] at hc
  have h1 := List.take_subset 150 _ hc
  rcases List.mem_filter.mp h1 with ⟨h2, h3⟩
  rcases List.mem_filter.mp h2 with ⟨_, h4⟩
  exact ⟨by simpa using h3, by simpa using h4⟩

/-- Characters surviving `_sanitize` (cell version). -/
theorem mem_sanitize (v : Option String) (c : Char) (hc : c ∈ (sanitize v).data) :
    unsafeChar c = false ∧ pyWs c = false := by
  cases v with
  | none => simp [sanitize] at hc
  | some s => exact mem_sanitizeStr s c hc

/-- Characters of a `"_".join` come from the parts or are underscores. -/
theorem mem_joinUnderscore (c : Char) :
    ∀ l : List String, c ∈ (joinUnderscore l).data →
      (∃ p ∈ l, c ∈ p.data) ∨ c = '_'
  | [], h => by simp [joinUnderscore] at h
  | [p], h => by
    simp only [joinUnderscore] at h
    exact Or.inl ⟨p, List.mem_singleton_self p, h⟩
  | p :: q :: rest, h => by
    simp only [joinUnderscore, String.data_append, List.mem_append] at h
    rcases h with (h | h) | h
    · exact Or.inl ⟨p, List.mem_cons_self .., h⟩
    · have hc : c = '_' := by simpa using h
      exact Or.inr hc
    · rcases mem_joinUnderscore c (q :: rest) h with ⟨r, hr, hcr⟩ | h
      · exact Or.inl ⟨r, List.mem_cons_of_mem p hr, hcr⟩
      · exact Or.inr h

/-- Length of a `"_".join` whose parts are each bounded by `B`. -/
theorem joinUnderscore_length_le (B : Nat) :
    ∀ l : List String, (∀ p ∈ l, p.length ≤ B) →
      (joinUnderscore l).length ≤ l.length * (B + 1)
  | [], _ => by simp [joinUnderscore, String.length]
  | [p], h => by
    have := h p (List.mem_singleton_self p)
    simp only [joinUnderscore, List.length_singleton, Nat.one_mul]
    omega
  | p :: q :: rest, h => by
    have hp := h p (List.mem_cons_self ..)
    have hrest := joinUnderscore_length_le B (q :: rest)
      (fun r hr => h r (List.mem_cons_of_mem p hr))
    simp only [joinUnderscore, String.length_append] at hrest ⊢
    simp only [List.length_cons] at hrest ⊢
    rw [Nat.succ_mul (rest.length + 1) (B + 1)]
    have hu : ("_" : String).length = 1 := rfl
    omega

/-- C7 (amended): the filename is the underscore-join of the non-empty
sanitized TaskID, Ticker, Form, Period and FilingDate fields of the slot
(each field individually whitespace-stripped, path-unsafe-character-free
and capped at 150 characters), with the literal marker `doc2` appended for
slot 2, plus the extension `.pdf`.  The resulting name contains no
path-unsafe character and no whitespace and has at most 910 characters
(6·151 + 4) — the 150-cap applies per field, not to the whole name.  When
all five fields sanitize to the empty string, slot 1 falls back to the
constant slot-based name `row_1.pdf` and slot 2 yields `doc2.pdf`. -/
theorem C7_filename (row : FinRow) (idx : Nat) (hidx : idx = 1 ∨ idx = 2) :
    (∀ c ∈ (determine_filename row idx).data, unsafeChar c = false ∧ pyWs c = false) ∧
    (determine_filename row idx).length ≤ 910 ∧
    ((sanitize row.TaskID = "" ∧ sanitize (tickerOf row idx) = "" ∧
      sanitize (formOf row idx) = "" ∧ sanitize (periodOf row idx) = "" ∧
      sanitize (filingDateOf row idx) = "") →
      (idx = 1 → determine_filename row idx = "row_1.pdf") ∧
      (idx = 2 → determine_filename row idx = "doc2.pdf")) := by
  have hparts : ∀ p ∈ fnParts row idx,
      p.length ≤ 150 ∧ ∀ c ∈ p.data, unsafeChar c = false ∧ pyWs c = false := by
    intro p hp
    have hcore : ∀ q ∈ [sanitize row.TaskID, sanitize (tickerOf row idx),
        sanitize (formOf row idx), sanitize (periodOf row idx),
        sanitize (filingDateOf row idx)],
        q.length ≤ 150 ∧ ∀ c ∈ q.data, unsafeChar c = false ∧ pyWs c = false := by
      intro q hq
      simp only [List.mem_cons, List.not_mem_nil, or_false] at hq
      rcases hq with rfl | rfl | rfl | rfl | rfl <;>
        exact ⟨sanitize_length_le _, fun c hc => mem_sanitize _ c hc⟩
    simp only [fnParts] at hp
    split at hp
    · rcases List.mem_append.mp hp with hp | hp
      · exact hcore p hp
      · rcases List.mem_singleton.mp hp with rfl
        exact ⟨by decide, by decide⟩
    · exact hcore p hp
  have hd : (determine_filename row idx).data =
      (if joinedParts row idx = "" then "row_" ++ Nat.repr idx
       else joinedParts row idx).data ++ (".pdf" : String).data := by
    simp only [determine_filename]
    rw [String.data_append]
  have hpdf : (".pdf" : String).length = 4 := by decide
  have hl : (determine_filename row idx).length =
      (if joinedParts row idx = "" then "row_" ++ Nat.repr idx
       else joinedParts row idx).length + 4 := by
    simp only [determine_filename]
    rw [String.length_append, hpdf]
  refine ⟨?_, ?_, ?_⟩
  · intro c hc
    rw [hd] at hc
    rcases List.mem_append.mp hc with hc | hc
    · by_cases hj : joinedParts row idx = ""
      · rw [if_pos hj] at hc
        rcases hidx with rfl | rfl
        · have hall : ∀ x ∈ ("row_" ++ Nat.repr 1).data,
              unsafeChar x = false ∧ pyWs x = false := by decide
          exact hall c hc
        · have hall : ∀ x ∈ ("row_" ++ Nat.repr 2).data,
              unsafeChar x = false ∧ pyWs x = false := by decide
          exact hall c hc
      · rw [if_neg hj] at hc
        simp only [joinedParts] at hc
        rcases mem_joinUnderscore c _ hc with ⟨p, hp, hcp⟩ | rfl
        · exact (hparts p (List.mem_filter.mp hp).1).2 c hcp
        · exact ⟨by decide, by decide⟩
    · have hall : ∀ x ∈ (".pdf" : String).data,
          unsafeChar x = false ∧ pyWs x = false := by decide
      exact hall c hc
  · rw [hl]
    by_cases hj : joinedParts row idx = ""
    · rw [if_pos hj]
      rcases hidx with rfl | rfl <;> decide
    · rw [if_neg hj]
      have hb := joinUnderscore_length_le 150
        ((fnParts row idx).filter (fun p => decide (p ≠ "")))
        (fun p hp => (hparts p (List.mem_filter.mp hp).1).1)
      have hfl : ((fnParts row idx).filter (fun p => decide (p ≠ ""))).length ≤ 6 := by
        have h1 := List.length_filter_le (fun p => decide (p ≠ "")) (fnParts row idx)
        have h2 : (fnParts row idx).length ≤ 6 := by
          simp only [fnParts]
          split <;> simp
        omega
      have hmul := Nat.mul_le_mul_right 151 hfl
      have hjoin : (joinedParts row idx).length =
          (joinUnderscore ((fnParts row idx).filter (fun p => decide (p ≠ "")))).length := rfl
      omega
  · rintro ⟨h1, h2, h3, h4, h5⟩
    constructor
    · rintro rfl
      have hj : joinedParts row 1 = "" := by
        simp only [joinedParts, fnParts]
        rw [h1, h2, h3, h4, h5]
        decide
      simp only [determine_filename, hj]
      decide
    · rintro rfl
      have hj : joinedParts row 2 = "doc2" := by
        simp only [joinedParts, fnParts]
        rw [h1, h2, h3, h4, h5]
        decide
      simp only [determine_filename, hj]
      decide

/-- Witness for C7 at slot 1 of a concrete row. -/
theorem C7_witness :
    ((1 : Nat) = 1 ∨ (1 : Nat) = 2) ∧ (determine_filename rowEmptyFields 1).length ≤ 910 :=
  ⟨Or.inl rfl, (C7_filename rowEmptyFields 1 (Or.inl rfl)).2.1⟩

/-! ### C6 — download retry/backoff (corrected: sleeps exceed the range) -/

/-- C6 counterexample: with `sleep_min = sleep_max = 1` and
`max_fetch_retries = 0`, the single failed attempt sleeps
`1 + 0·(1−1) + 1·0.6 = 8/5`, which is outside `[sleep_min, sleep_max]`. -/
theorem C6_cex :
    (download_html_with_retries (fun _ => false) (fun _ => 0) 1 1 0).sleeps = [8/5] ∧
    ¬ ((8/5 : ℚ) ≤ 1) := by
  constructor
  · simp only [download_html_with_retries, retryGo]
    norm_num
  · norm_num

/-- The retry loop makes at most `remaining` attempts. -/
theorem retryGo_attempts_le (outcome : Nat → Bool) (rand : Nat → ℚ) (smin smax : ℚ) :
    ∀ rem a, (retryGo outcome rand smin smax a rem).attempts ≤ rem
  | 0, _ => by simp [retryGo]
  | rem + 1, a => by
    cases ho : outcome a <;> simp only [retryGo, ho, if_true, if_false]
    · have := retryGo_attempts_le outcome rand smin smax rem (a + 1)
      simp only [Bool.false_eq_true, if_false]
      omega
    · simp

/-- On success the loop stops at the first successful attempt: the final
attempt succeeds and all earlier attempts failed. -/
theorem retryGo_first_success (outcome : Nat → Bool) (rand : Nat → ℚ) (smin smax : ℚ) :
    ∀ rem a, (retryGo outcome rand smin smax a rem).ok = true →
      outcome (a + (retryGo outcome rand smin smax a rem).attempts - 1) = true ∧
      ∀ j, a ≤ j → j < a + (retryGo outcome rand smin smax a rem).attempts - 1 →
        outcome j = false
  | 0, a => by simp [retryGo]
  | rem + 1, a => by
    cases ho : outcome a <;> simp only [retryGo, ho, if_true, if_false]
    · simp only [Bool.false_eq_true, if_false]
      intro hok
      obtain ⟨h1, h2⟩ := retryGo_first_success outcome rand smin smax rem (a + 1) hok
      constructor
      · have he : a + ((retryGo outcome rand smin smax (a + 1) rem).attempts + 1) - 1 =
            a + 1 + (retryGo outcome rand smin smax (a + 1) rem).attempts - 1 := by omega
        rw [he]
        exact h1
      · intro j hj1 hj2
        rcases Nat.eq_or_lt_of_le hj1 with rfl | hlt
        · exact ho
        · exact h2 j hlt (by omega)
    · intro _
      constructor
      · simpa using ho
      · intro j hj1 hj2
        omega

/-- On failure the loop has made exactly `remaining` attempts and every
attempt failed. -/
theorem retryGo_all_fail (outcome : Nat → Bool) (rand : Nat → ℚ) (smin smax : ℚ) :
    ∀ rem a, (retryGo outcome rand smin smax a rem).ok = false →
      (retryGo outcome rand smin smax a rem).attempts = rem ∧
      ∀ j, a ≤ j → j < a + rem → outcome j = false
  | 0, a => by
    intro _
    exact ⟨rfl, fun j hj1 hj2 => absurd hj2 (by omega)⟩
  | rem + 1, a => by
    cases ho : outcome a <;> simp only [retryGo, ho, if_true, if_false]
    · simp only [Bool.false_eq_true, if_false]
      intro hok
      obtain ⟨h1, h2⟩ := retryGo_all_fail outcome rand smin smax rem (a + 1) hok
      refine ⟨by omega, fun j hj1 hj2 => ?_⟩
      rcases Nat.eq_or_lt_of_le hj1 with rfl | hlt
      · exact ho
      · exact h2 j hlt (by omega)
    · intro h
      cases h

/-- Each sleep of the retry loop is a random base in
`[sleep_min, sleep_max]` plus `0.6` times the attempt number. -/
theorem retryGo_sleeps (outcome : Nat → Bool) (rand : Nat → ℚ) (smin smax : ℚ)
    (hr : ∀ i, 0 ≤ rand i ∧ rand i < 1) (hs : smin ≤ smax) :
    ∀ rem a (i : Nat) (q : ℚ), (retryGo outcome rand smin smax a rem).sleeps[i]? = some q →
      smin + (a + i) * (3/5 : ℚ) ≤ q ∧ q ≤ smax + (a + i) * (3/5 : ℚ)
  | 0, a, i, q => by simp [retryGo]
  | rem + 1, a, i, q => by
    cases ho : outcome a
    case true => simp [retryGo, ho]
    case false =>
      simp only [retryGo, ho, Bool.false_eq_true, if_false]
      cases i with
      | zero =>
        simp only [List.getElem?_cons_zero, Option.some.injEq]
        rintro rfl
        have hd : (0 : ℚ) ≤ smax - smin := by linarith
        have h1 : 0 ≤ rand a * (smax - smin) := mul_nonneg (hr a).1 hd
        have h2 : rand a * (smax - smin) ≤ smax - smin := by
          have := mul_le_mul_of_nonneg_right (le_of_lt (hr a).2) hd
          simpa using this
        constructor <;> [skip; skip] <;> push_cast <;> nlinarith [h1, h2]
      | succ i =>
        simp only [List.getElem?_cons_succ]
        intro hq
        obtain ⟨h1, h2⟩ := retryGo_sleeps outcome rand smin smax hr hs rem (a + 1) i q hq
        constructor <;> push_cast at h1 h2 ⊢ <;> nlinarith [h1, h2]

/-- C6 (amended): the download step makes at most `maxFetchRetries + 1`
fetch attempts and stops at the first success (on success the last attempt
made is the first successful one; on failure exactly `maxFetchRetries + 1`
attempts were made, all failing).  After the i-th failed attempt it sleeps
`sleep_min + random()·(sleep_max − sleep_min) + 0.6·i`: a random base
inside `[sleep_min, sleep_max]` plus `0.6` times the attempt number — the
sleep grows linearly with the attempt number but is NOT contained in
`[sleep_min, sleep_max]`; it also sleeps once more after the final failed
attempt. -/
theorem C6_retry (outcome : Nat → Bool) (rand : Nat → ℚ) (smin smax : ℚ)
    (maxR : Nat) (hr : ∀ i, 0 ≤ rand i ∧ rand i < 1) (hs : smin ≤ smax) :
    (download_html_with_retries outcome rand smin smax maxR).attempts ≤ maxR + 1 ∧
    ((download_html_with_retries outcome rand smin smax maxR).ok = true →
      outcome (download_html_with_retries outcome rand smin smax maxR).attempts = true ∧
      ∀ j, 1 ≤ j → j < (download_html_with_retries outcome rand smin smax maxR).attempts →
        outcome j = false) ∧
    ((download_html_with_retries outcome rand smin smax maxR).ok = false →
      (download_html_with_retries outcome rand smin smax maxR).attempts = maxR + 1 ∧
      ∀ j, 1 ≤ j → j ≤ maxR + 1 → outcome j = false) ∧
    ∀ (i : Nat) (q : ℚ),
      (download_html_with_retries outcome rand smin smax maxR).sleeps[i]? = some q →
      smin + (1 + i) * (3/5 : ℚ) ≤ q ∧ q ≤ smax + (1 + i) * (3/5 : ℚ) := by
  simp only [download_html_with_retries]
  refine ⟨retryGo_attempts_le outcome rand smin smax (maxR + 1) 1, ?_, ?_, ?_⟩
  · intro hok
    obtain ⟨h1, h2⟩ := retryGo_first_success outcome rand smin smax (maxR + 1) 1 hok
    constructor
    · have he : 1 + (retryGo outcome rand smin smax 1 (maxR + 1)).attempts - 1 =
          (retryGo outcome rand smin smax 1 (maxR + 1)).attempts := by omega
      rw [he] at h1
      exact h1
    · intro j hj1 hj2
      exact h2 j hj1 (by omega)
  · intro hok
    obtain ⟨h1, h2⟩ := retryGo_all_fail outcome rand smin smax (maxR + 1) 1 hok
    exact ⟨h1, fun j hj1 hj2 => h2 j hj1 (by omega)⟩
  · exact retryGo_sleeps outcome rand smin smax hr hs (maxR + 1) 1

/-! ### C3 — YoY pairing invariants -/

/-- Rows of a `groupby(["Company","Ticker","Sector"])` group carry the
group key and come from the input. -/
theorem groupBy3_rows (l : List MRow) (kg : (String × String × String) × List MRow)
    (hkg : kg ∈ groupBy3 l) :
    ∀ r ∈ kg.2, (r.Company, r.Ticker, r.Sector) = kg.1 ∧ r ∈ l := by
  simp only [groupBy3, List.mem_map] at hkg
  obtain ⟨k, _, rfl⟩ := hkg
  intro r hr
  rcases List.mem_filter.mp hr with ⟨hrl, hpred⟩
  exact ⟨by simpa using hpred, hrl⟩

/-- Rows of a `groupby` group (single string key) carry the key and come
from the input. -/
theorem groupBy_rows (key : MRow → String) (l : List MRow)
    (kg : String × List MRow) (hkg : kg ∈ groupBy key l) :
    ∀ r ∈ kg.2, key r = kg.1 ∧ r ∈ l := by
  simp only [groupBy, List.mem_map] at hkg
  obtain ⟨k, _, rfl⟩ := hkg
  intro r hr
  rcases List.mem_filter.mp hr with ⟨hrl, hpred⟩
  exact ⟨by simpa using hpred, hrl⟩

/-- Every YoY candidate `(sector, company, r1, r2)` pairs two filings of
the same company from the TWO manifest, with distinct years and `r1` at
least as recent as `r2`. -/
theorem yoyCandidates_spec (two : List MRow) (t : String × String × MRow × MRow)
    (ht : t ∈ yoyCandidates two) :
    t.2.2.1 ∈ two ∧ t.2.2.2 ∈ two ∧ t.2.2.1.Company = t.2.2.2.Company ∧
    yearOf t.2.2.2.FilingDate ≠ yearOf t.2.2.1.FilingDate ∧
    strLe t.2.2.2.FilingDate t.2.2.1.FilingDate = true := by
  obtain ⟨kg, hkg, hf⟩ := List.mem_filterMap.mp ht
  dsimp only [yoyCandidates] at hf
  by_cases hy : ((kg.2.map fun r => yearOf r.FilingDate).dedup).length < 2
  · rw [if_pos hy] at hf
    cases hf
  · rw [if_neg hy] at hf
    cases hsort : sortByDateDesc kg.2 with
    | nil =>
      rw [hsort] at hf
      cases hf
    | cons x tail =>
      rw [hsort] at hf
      simp only [List.head?_cons] at hf
      cases hfil : ((x :: tail).filter
          (fun r => decide (yearOf r.FilingDate ≠ yearOf x.FilingDate))).head? with
      | none =>
        rw [hfil] at hf
        cases hf
      | some r2 =>
        rw [hfil] at hf
        simp only [Option.some.injEq] at hf
        subst hf
        have hx_in : x ∈ kg.2 := by
          have : x ∈ sortByDateDesc kg.2 := by
            rw [hsort]
            exact List.mem_cons_self ..
          exact mem_sortBy.mp this
        have hr2_fil : r2 ∈ (x :: tail).filter
            (fun r => decide (yearOf r.FilingDate ≠ yearOf x.FilingDate)) := by
          cases hlist : (x :: tail).filter
              (fun r => decide (yearOf r.FilingDate ≠ yearOf x.FilingDate)) with
          | nil => rw [hlist] at hfil; cases hfil
          | cons z zs =>
            rw [hlist] at hfil
            simp only [List.head?_cons, Option.some.injEq] at hfil
            rw [hfil]
            exact List.mem_cons_self ..
        obtain ⟨hr2_mem, hr2_year⟩ := List.mem_filter.mp hr2_fil
        have hr2_in : r2 ∈ kg.2 := by
          have : r2 ∈ sortByDateDesc kg.2 := by rw [hsort]; exact hr2_mem
          exact mem_sortBy.mp this
        have hkx := groupBy3_rows two kg hkg x hx_in
        have hkr2 := groupBy3_rows two kg hkg r2 hr2_in
        refine ⟨hkx.2, hkr2.2, ?_, by simpa using hr2_year, ?_⟩
        · have e1 : x.Company = kg.1.1 := congrArg (fun q => q.1) hkx.1
          have e2 : r2.Company = kg.1.1 := congrArg (fun q => q.1) hkr2.1
          rw [e1, e2]
        · have hpw : (sortByDateDesc kg.2).Pairwise
              (fun u v => strLe v.FilingDate u.FilingDate = true) := by
            exact pairwise_sortBy (fun u v : MRow => strLe v.FilingDate u.FilingDate)
              (fun u v => strLe_total v.FilingDate u.FilingDate)
              (fun u v w h1 h2 => strLe_trans w.FilingDate v.FilingDate u.FilingDate h2 h1)
              kg.2
          rw [hsort] at hpw
          rcases List.mem_cons.mp hr2_mem with rfl | htail
          · exact strLe_refl _
          · exact List.rel_of_pairwise_cons hpw htail

/-- Every row emitted by `pick_yoy` is a `make_row_pair` over a YoY
candidate. -/
theorem pick_yoy_rows (two : List MRow) (k : Nat) (r : TaskRow)
    (hr : r ∈ pick_yoy two k) :
    ∃ t ∈ yoyCandidates two, ∃ id : String,
      r = make_row_pair id "C (YoY)" t.2.2.1 t.2.2.2 := by
  simp only [pick_yoy, List.mem_mapIdx] at hr
  obtain ⟨i, hi, hfr⟩ := hr
  set l := sortBy yoySortLe (yoyCandidates two) with hl
  have hel : (l.take k)[i] ∈ yoyCandidates two := by
    have h1 : (l.take k)[i] ∈ l.take k := List.getElem_mem _
    have h2 : (l.take k)[i] ∈ l := List.take_subset k l h1
    exact mem_sortBy.mp h2
  exact ⟨(l.take k)[i], hel, "C_YOY_" ++ pad2 (i + 1), hfr.symm⟩

/-- Every row emitted by `pick_peers` is a `mkPeerRow` over a Stage-1 or
Stage-2 pair of the used-company-filtered rows. -/
theorem pick_peers_rows (ab : List MRow) (k : Nat) (used : List (String × String))
    (r : TaskRow) (hr : r ∈ pick_peers ab k used) :
    ∃ j, ∃ q ∈ stage1Pairs (ab.filter (fun m => decide ((m.Company, m.Ticker) ∉ used))) ++
      stage2Pairs (ab.filter (fun m => decide ((m.Company, m.Ticker) ∉ used))),
      r = mkPeerRow j q := by
  simp only [pick_peers] at hr
  by_cases h1 : max k 1 ≤
      (stage1Pairs (ab.filter (fun m => decide ((m.Company, m.Ticker) ∉ used)))).length
  · rw [if_pos h1] at hr
    simp only [List.mem_mapIdx] at hr
    obtain ⟨i, hi, hfr⟩ := hr
    exact ⟨i + 1, _, List.mem_append_left _ (List.take_subset _ _ (List.getElem_mem _)),
      hfr.symm⟩
  · rw [if_neg h1] at hr
    by_cases h2 : (stage1Pairs
        (ab.filter (fun m => decide ((m.Company, m.Ticker) ∉ used)))).length < k
    · rw [if_pos h2] at hr
      simp only [List.mem_mapIdx] at hr
      obtain ⟨i, hi, hfr⟩ := hr
      exact ⟨i + 1, _, List.take_subset _ _ (List.getElem_mem _), hfr.symm⟩
    · rw [if_neg h2] at hr
      simp only [List.mem_mapIdx] at hr
      obtain ⟨i, hi, hfr⟩ := hr
      exact ⟨i + 1, _, List.mem_append_left _ (List.take_subset _ _ (List.getElem_mem _)),
        hfr.symm⟩

/-- The assembler output is the concatenation of the A block, the B block,
the YoY block and the Peer block (definitional unfolding). -/
theorem assemble_eq (ab two : List MRow) (a b y p : Nat) :
    assemble ab two a b y p =
      ((sortBy abLe ab).take a).mapIdx
          (fun i r => make_row_single ("A_" ++ pad2 (i + 1)) "A" r) ++
        (((sortBy abLe ab).drop a).take b).mapIdx
          (fun i r => make_row_single ("B_" ++ pad2 (i + 1)) "B" r) ++
        pick_yoy two y ++
        pick_peers (sortBy abLe ab) p (used_companies two y) := rfl

/-- C3: every output row with Category `C (YoY)` pairs the same company
with itself across two distinct filing years, the more recent filing in
slot 1 (`FilingDate_1 ≥ FilingDate_2` in code-point lexicographic order,
which on ISO dates is chronological order). -/
theorem C3_yoy_pairing (ab two : List MRow) (a b y p : Nat) (r : TaskRow)
    (hr : r ∈ assemble ab two a b y p) (hcat : r.Category = "C (YoY)") :
    r.Company_1 = r.Company_2 ∧ r.FilingDate_1.take 4 ≠ r.FilingDate_2.take 4 ∧
      strLe r.FilingDate_2 r.FilingDate_1 = true := by
  rw [assemble_eq] at hr
  rcases List.mem_append.mp hr with hr | hr4
  rotate_left
  · obtain ⟨j, q, hq, rfl⟩ := pick_peers_rows _ p _ r hr4
    have hne : ("C (Peer)" : String) = "C (YoY)" := hcat
    exact absurd hne (by decide)
  rcases List.mem_append.mp hr with hr | hr3
  rotate_left
  · obtain ⟨t, ht, id, rfl⟩ := pick_yoy_rows two y r hr3
    obtain ⟨_, _, hcomp, hyear, hle⟩ := yoyCandidates_spec two t ht
    exact ⟨hcomp, fun he => hyear he.symm, hle⟩
  rcases List.mem_append.mp hr with hr1 | hr2
  · simp only [List.mem_mapIdx] at hr1
    obtain ⟨i, hi, hfr⟩ := hr1
    rw [← hfr] at hcat
    have hne : ("A" : String) = "C (YoY)" := hcat
    exact absurd hne (by decide)
  · simp only [List.mem_mapIdx] at hr2
    obtain ⟨i, hi, hfr⟩ := hr2
    rw [← hfr] at hcat
    have hne : ("B" : String) = "C (YoY)" := hcat
    exact absurd hne (by decide)

/-- Witness for C3 at a concrete TWO manifest with one company filing in
2024 and 2023. -/
theorem C3_witness :
    (yoyRowEx ∈ assemble [] twoEx 0 0 1 0 ∧ yoyRowEx.Category = "C (YoY)") ∧
    (yoyRowEx.Company_1 = yoyRowEx.Company_2 ∧
      yoyRowEx.FilingDate_1.take 4 ≠ yoyRowEx.FilingDate_2.take 4 ∧
      strLe yoyRowEx.FilingDate_2 yoyRowEx.FilingDate_1 = true) :=
  ⟨⟨by decide, by decide⟩,
    C3_yoy_pairing [] twoEx 0 0 1 0 yoyRowEx (by decide) (by decide)⟩

/-! ### C4 — TaskRow slot invariant (corrected: YoY rows pair a company
with itself) -/

/-- C4 counterexample: a `C (YoY)` output row has `Company_1 = Company_2`
(the YoY pairing is the same company across two years), contradicting the
claimed `slot 1 ≠ slot 2 company` for C rows. -/
theorem C4_cex :
    yoyRowEx ∈ assemble [] twoEx 0 0 1 0 ∧ yoyRowEx.Category = "C (YoY)" ∧
    yoyRowEx.Company_1 = yoyRowEx.Company_2 ∧ yoyRowEx.Company_1 = "X Corp" := by
  decide

/-- A group of `groupBy` is a filter of its input. -/
theorem groupBy_group_eq (key : MRow → String) (l : List MRow)
    (kg : String × List MRow) (hkg : kg ∈ groupBy key l) :
    kg.2 = l.filter (fun r => decide (key r = kg.1)) := by
  simp only [groupBy, List.mem_map] at hkg
  obtain ⟨k, _, rfl⟩ := hkg
  rfl

/-- A pair produced by `pairsOf` is a (two-element) sublist of the input. -/
theorem pairsOf_sublist : ∀ (l : List MRow) (q : MRow × MRow), q ∈ pairsOf l →
    [q.1, q.2].Sublist l
  | [], q, hq => absurd hq (List.not_mem_nil q)
  | [_], q, hq => absurd hq (List.not_mem_nil q)
  | a :: b :: rest, q, hq => by
    rcases List.mem_cons.mp hq with rfl | hq
    · exact (List.nil_sublist rest).cons₂ b |>.cons₂ a
    · exact ((pairsOf_sublist rest q hq).cons b).cons a

/-- Any Stage-1 or Stage-2 pair consists of two rows of the filtered input
with distinct companies, provided the input companies are pairwise
distinct. -/
theorem stagePairs_fields (df : List MRow) (q : MRow × MRow)
    (hq : q ∈ stage1Pairs df ++ stage2Pairs df)
    (hnodup : (df.map MRow.Company).Nodup) :
    q.1 ∈ df ∧ q.2 ∈ df ∧ q.1.Company ≠ q.2.Company := by
  have key : ∀ sub : List MRow, (∃ le, q ∈ pairsOf (sortBy le sub)) →
      (sub.map MRow.Company).Nodup → q.1 ∈ sub ∧ q.2 ∈ sub ∧
      q.1.Company ≠ q.2.Company := by
    rintro sub ⟨le, hqs⟩ hnd
    have hsub := pairsOf_sublist _ q hqs
    have h1 : q.1 ∈ sub := mem_sortBy.mp (hsub.subset (List.mem_cons_self ..))
    have h2 : q.2 ∈ sub := mem_sortBy.mp
      (hsub.subset (List.mem_cons_of_mem _ (List.mem_cons_self ..)))
    refine ⟨h1, h2, ?_⟩
    have hmap : [q.1.Company, q.2.Company].Sublist ((sortBy le sub).map MRow.Company) := by
      simpa using hsub.map MRow.Company
    have hnd2 : ((sortBy le sub).map MRow.Company).Nodup :=
      (((sortBy_perm le sub).map MRow.Company).nodup_iff).mpr hnd
    have := hnd2.sublist hmap
    simpa using (List.nodup_cons.mp this).1
  rcases List.mem_append.mp hq with hq | hq
  · simp only [stage1Pairs, List.mem_flatMap] at hq
    obtain ⟨sg, hsg, hq⟩ := hq
    obtain ⟨yg, hyg, hq⟩ := hq
    have hsge := groupBy_group_eq _ df sg hsg
    have hyge := groupBy_group_eq _ sg.2 yg hyg
    have hysub : yg.2.Sublist df := by
      rw [hyge, hsge]
      exact (List.filter_sublist _).trans (List.filter_sublist _)
    have hnd : (yg.2.map MRow.Company).Nodup := hnodup.sublist (hysub.map _)
    obtain ⟨h1, h2, h3⟩ := key yg.2 ⟨companyLe, hq⟩ hnd
    exact ⟨hysub.subset h1, hysub.subset h2, h3⟩
  · simp only [stage2Pairs, List.mem_flatMap] at hq
    obtain ⟨sg, hsg, hq⟩ := hq
    have hsge := groupBy_group_eq _ df sg hsg
    have hssub : sg.2.Sublist df := by
      rw [hsge]
      exact List.filter_sublist _
    have hnd : (sg.2.map MRow.Company).Nodup := hnodup.sublist (hssub.map _)
    obtain ⟨h1, h2, h3⟩ := key sg.2 ⟨yearCompanyLe, hq⟩ hnd
    exact ⟨hssub.subset h1, hssub.subset h2, h3⟩

/-- C4 (amended): under the AB ManifestTable invariant (pairwise-distinct,
non-empty companies; non-empty companies in TWO), every output row
satisfies: `A`/`B` rows have only slot 1 populated (all six slot-2
descriptive fields empty, slot 1 company non-empty); `C (YoY)` rows have
both slots populated with the SAME company (`Company_1 = Company_2`);
`C (Peer)` rows have both slots populated with distinct companies. -/
theorem C4_invariant (ab two : List MRow) (a b y p : Nat)
    (hdist : (ab.map MRow.Company).Nodup)
    (hne1 : ∀ m ∈ ab, m.Company ≠ "")
    (hne2 : ∀ m ∈ two, m.Company ≠ "")
    (r : TaskRow) (hr : r ∈ assemble ab two a b y p) :
    ((r.Category = "A" ∨ r.Category = "B") →
      r.Company_2 = "" ∧ r.Ticker_2 = "" ∧ r.Sector_2 = "" ∧ r.Form_2 = "" ∧
        r.Period_2 = "" ∧ r.FilingDate_2 = "" ∧ r.Company_1 ≠ "") ∧
    (r.Category = "C (YoY)" →
      r.Company_1 = r.Company_2 ∧ r.Company_1 ≠ "") ∧
    (r.Category = "C (Peer)" →
      r.Company_1 ≠ r.Company_2 ∧ r.Company_1 ≠ "" ∧ r.Company_2 ≠ "") := by
  have habs : ∀ m ∈ sortBy abLe ab, m.Company ≠ "" := by
    intro m hm
    exact hne1 m (mem_sortBy.mp hm)
  rw [assemble_eq] at hr
  rcases List.mem_append.mp hr with hr | hr4
  rotate_left
  · -- Peer block
    obtain ⟨j, q, hq, rfl⟩ := pick_peers_rows _ p _ r hr4
    have hnodup : (((sortBy abLe ab).filter
        (fun m => decide ((m.Company, m.Ticker) ∉ used_companies two y))).map
          MRow.Company).Nodup := by
      exact ((((sortBy_perm abLe ab).map MRow.Company).nodup_iff).mpr hdist).sublist
        ((List.filter_sublist (sortBy abLe ab)).map MRow.Company)
    obtain ⟨h1, h2, h3⟩ := stagePairs_fields _ q hq hnodup
    have h1m : q.1 ∈ sortBy abLe ab := (List.filter_sublist _).subset h1
    have h2m : q.2 ∈ sortBy abLe ab := (List.filter_sublist _).subset h2
    refine ⟨?_, ?_, ?_⟩
    · rintro (hc | hc) <;> exact absurd (show ("C (Peer)" : String) = _ from hc) (by decide)
    · intro hc
      exact absurd (show ("C (Peer)" : String) = _ from hc) (by decide)
    · intro _
      exact ⟨h3, habs q.1 h1m, habs q.2 h2m⟩
  rcases List.mem_append.mp hr with hr | hr3
  rotate_left
  · -- YoY block
    obtain ⟨t, ht, id, rfl⟩ := pick_yoy_rows two y r hr3
    obtain ⟨hm1, _, hcomp, _, _⟩ := yoyCandidates_spec two t ht
    refine ⟨?_, ?_, ?_⟩
    · rintro (hc | hc) <;> exact absurd (show ("C (YoY)" : String) = _ from hc) (by decide)
    · intro _
      exact ⟨hcomp, hne2 _ hm1⟩
    · intro hc
      exact absurd (show ("C (YoY)" : String) = _ from hc) (by decide)
  rcases List.mem_append.mp hr with hr1 | hr2
  · -- A block
    simp only [List.mem_mapIdx] at hr1
    obtain ⟨i, hi, hfr⟩ := hr1
    subst hfr
    refine ⟨?_, ?_, ?_⟩
    · intro _
      refine ⟨rfl, rfl, rfl, rfl, rfl, rfl, ?_⟩
      exact habs _ (List.take_subset _ _ (List.getElem_mem _))
    · intro hc
      exact absurd (show ("A" : String) = _ from hc) (by decide)
    · intro hc
      exact absurd (show ("A" : String) = _ from hc) (by decide)
  · -- B block
    simp only [List.mem_mapIdx] at hr2
    obtain ⟨i, hi, hfr⟩ := hr2
    subst hfr
    refine ⟨?_, ?_, ?_⟩
    · intro _
      refine ⟨rfl, rfl, rfl, rfl, rfl, rfl, ?_⟩
      exact habs _ (List.drop_subset _ _ (List.take_subset _ _ (List.getElem_mem _)))
    · intro hc
      exact absurd (show ("B" : String) = _ from hc) (by decide)
    · intro hc
      exact absurd (show ("B" : String) = _ from hc) (by decide)

/-- Witness for C4 at a concrete one-row AB manifest. -/
theorem C4_witness :
    (([rowAlpha].map MRow.Company).Nodup ∧ (∀ m ∈ [rowAlpha], m.Company ≠ "") ∧
      (∀ m ∈ ([] : List MRow), m.Company ≠ "") ∧
      make_row_single "A_01" "A" rowAlpha ∈ assemble [rowAlpha] [] 1 0 0 0) ∧
    (((make_row_single "A_01" "A" rowAlpha).Category = "A" ∨
        (make_row_single "A_01" "A" rowAlpha).Category = "B") →
      (make_row_single "A_01" "A" rowAlpha).Company_2 = "" ∧
        (make_row_single "A_01" "A" rowAlpha).Ticker_2 = "" ∧
        (make_row_single "A_01" "A" rowAlpha).Sector_2 = "" ∧
        (make_row_single "A_01" "A" rowAlpha).Form_2 = "" ∧
        (make_row_single "A_01" "A" rowAlpha).Period_2 = "" ∧
        (make_row_single "A_01" "A" rowAlpha).FilingDate_2 = "" ∧
        (make_row_single "A_01" "A" rowAlpha).Company_1 ≠ "") :=
  ⟨⟨by decide, by decide, by decide, by decide⟩,
    (C4_invariant [rowAlpha] [] 1 0 0 0 (by decide) (by decide) (by decide)
      (make_row_single "A_01" "A" rowAlpha) (by decide)).1⟩

/-! ### Decimal representation lemmas (for TaskID uniqueness) -/

/-- The digit characters are `'0' + d` for `d < 10`. -/
theorem digitChar_toNat (n : Nat) (h : n < 10) : (Nat.digitChar n).toNat = 48 + n := by
  interval_cases n <;> rfl

/-- `Nat.toDigitsCore 10` with enough fuel computes `decList` (appended to
the accumulator). -/
theorem toDigitsCore_eq_decList :
    ∀ (fuel n : Nat) (acc : List Char), n < fuel →
      Nat.toDigitsCore 10 fuel n acc = decList n ++ acc
  | 0, n, _, h => absurd h (Nat.not_lt_zero n)
  | fuel + 1, n, acc, h => by
    simp only [Nat.toDigitsCore]
    by_cases h10 : n / 10 = 0
    · have hn : n < 10 := by omega
      rw [if_pos h10, decList, dif_pos hn, Nat.mod_eq_of_lt hn]
      rfl
    · have hge : ¬ n < 10 := by omega
      have hlt : n / 10 < fuel := by
        have := Nat.div_lt_self (show 0 < n by omega) (show 1 < 10 by omega)
        omega
      rw [if_neg h10, toDigitsCore_eq_decList fuel (n / 10) _ hlt]
      conv_rhs => rw [decList, dif_neg hge]
      simp

/-- The characters of `Nat.repr` are `decList`. -/
theorem repr_data (n : Nat) : (Nat.repr n).data = decList n := by
  have h : Nat.repr n = (Nat.toDigitsCore 10 (n + 1) n []).asString := rfl
  rw [h, toDigitsCore_eq_decList (n + 1) n [] (Nat.lt_succ_self n)]
  simp [List.asString]

/-- Folding the digit values over `decList n` recovers `n`. -/
theorem decList_foldl (n : Nat) : ∀ a : Nat,
    (decList n).foldl (fun x c => 10 * x + (c.toNat - 48)) a =
      a * 10 ^ (decList n).length + n := by
  induction n using Nat.strong_induction_on with
  | _ n ih =>
    intro a
    by_cases h : n < 10
    · rw [decList, dif_pos h]
      simp only [List.foldl_cons, List.foldl_nil, List.length_singleton]
      rw [digitChar_toNat n h]
      ring_nf
      omega
    · have hd : n / 10 < n := Nat.div_lt_self (by omega) (by omega)
      rw [decList, dif_neg h]
      rw [List.foldl_append]
      rw [ih (n / 10) hd a]
      simp only [List.foldl_cons, List.foldl_nil, List.length_append,
        List.length_singleton]
      rw [digitChar_toNat (n % 10) (Nat.mod_lt n (by omega))]
      have hpow : 10 ^ ((decList (n / 10)).length + 1) =
          10 ^ (decList (n / 10)).length * 10 := by
        rw [pow_succ]
      have hnm : 10 * (n / 10) + n % 10 = n := Nat.div_add_mod n 10
      set L := (decList (n / 10)).length
      have : 10 * (a * 10 ^ L + n / 10) + (48 + n % 10 - 48) =
          a * (10 ^ L * 10) + (10 * (n / 10) + n % 10) := by ring_nf; omega
      rw [this, hnm, ← hpow]

/-- `decList` is injective. -/
theorem decList_injective {m n : Nat} (h : decList m = decList n) : m = n := by
  have hm := decList_foldl m 0
  have hn := decList_foldl n 0
  rw [h] at hm
  omega

/-- `decList` is never empty. -/
theorem decList_ne_nil (n : Nat) : decList n ≠ [] := by
  by_cases h : n < 10
  · rw [decList, dif_pos h]
    simp
  · rw [decList, dif_neg h]
    simp

/-- A positive number's decimal representation has no leading zero. -/
theorem decList_head_ne_zero :
    ∀ n : Nat, 1 ≤ n → ∀ c cs, decList n = c :: cs → c ≠ '0' := by
  intro n
  induction n using Nat.strong_induction_on with
  | _ n ih =>
    intro hn c cs hd
    by_cases h : n < 10
    · rw [decList, dif_pos h] at hd
      have hc : Nat.digitChar n = c := by
        simpa using congrArg (fun l => l.head?) hd
      subst hc
      interval_cases n <;> decide
    · rw [decList, dif_neg h] at hd
      cases hrec : decList (n / 10) with
      | nil => exact absurd hrec (decList_ne_nil _)
      | cons c2 cs2 =>
        rw [hrec] at hd
        simp only [List.cons_append, List.cons.injEq] at hd
        have hdiv : n / 10 < n := Nat.div_lt_self (by omega) (by omega)
        have h1 : 1 ≤ n / 10 := by
          have : 10 ≤ n := by omega
          omega
        rw [← hd.1]
        exact ih (n / 10) hdiv h1 c2 cs2 hrec

/-- `f"{i:02d}"` is injective. -/
theorem pad2_injective {m n : Nat} (h : pad2 m = pad2 n) : m = n := by
  have hd := congrArg String.data h
  by_cases hm : m < 10 <;> by_cases hn : n < 10
  · rw [pad2, if_pos hm, pad2, if_pos hn] at hd
    rw [String.data_append, String.data_append] at hd
    have := List.append_cancel_left hd
    rw [repr_data, repr_data] at this
    exact decList_injective this
  · rw [pad2, if_pos hm, pad2, if_neg hn] at hd
    rw [String.data_append] at hd
    have e0 : ("0" : String).data = ['0'] := rfl
    rw [e0, repr_data, repr_data] at hd
    exact absurd rfl (decList_head_ne_zero n (by omega) '0' (decList m) hd.symm)
  · rw [pad2, if_neg hm, pad2, if_pos hn] at hd
    rw [String.data_append] at hd
    have e0 : ("0" : String).data = ['0'] := rfl
    rw [e0, repr_data, repr_data] at hd
    exact absurd rfl (decList_head_ne_zero m (by omega) '0' (decList n) hd)
  · rw [pad2, if_neg hm, pad2, if_neg hn] at hd
    rw [repr_data, repr_data] at hd
    exact decList_injective hd

/-! ### C2 — TaskID format and uniqueness -/

/-- Strings with equal character lists are equal. -/
theorem string_eq_of_data_eq {s t : String} (h : s.data = t.data) : s = t := by
  cases s
  cases t
  exact congrArg String.mk h

/-- Mapping `TaskID` over an ID-assigning `mapIdx` yields the claimed ID
sequence. -/
theorem map_taskid_mapIdx {α : Type} (pre : String) (l : List α) (g : Nat → α → TaskRow)
    (h : ∀ i x, (g i x).TaskID = pre ++ pad2 (i + 1)) :
    (l.mapIdx g).map TaskRow.TaskID = mkIds pre l.length := by
  rw [List.mapIdx_eq_enum_map, List.map_map]
  have hc : ∀ q ∈ l.enum, (TaskRow.TaskID ∘ Function.uncurry g) q =
      ((fun i => pre ++ pad2 (i + 1)) ∘ Prod.fst) q :=
    fun q _ => h q.1 q.2
  rw [List.map_congr_left hc, ← List.map_map, List.enum_map_fst]
  rfl

/-- Membership in `mkIds`. -/
theorem mem_mkIds {pre : String} {n : Nat} {s : String} (h : s ∈ mkIds pre n) :
    ∃ i, s = pre ++ pad2 (i + 1) := by
  simp only [mkIds, List.mem_map, List.mem_range] at h
  obtain ⟨i, _, rfl⟩ := h
  exact ⟨i, rfl⟩

/-- The claimed ID sequence of one category has no duplicates. -/
theorem mkIds_nodup (pre : String) (n : Nat) : (mkIds pre n).Nodup := by
  refine List.Nodup.map ?_ (List.nodup_range _)
  intro i j hij
  have hd := congrArg String.data hij
  rw [String.data_append, String.data_append] at hd
  have hp : pad2 (i + 1) = pad2 (j + 1) :=
    string_eq_of_data_eq (List.append_cancel_left hd)
  have := pad2_injective hp
  omega

/-- Two ID sequences with incompatible prefixes are disjoint. -/
theorem mkIds_disjoint {p1 p2 : String} {n1 n2 : Nat}
    (h : ∀ i j, p1 ++ pad2 (i + 1) ≠ p2 ++ pad2 (j + 1)) :
    (mkIds p1 n1).Disjoint (mkIds p2 n2) := by
  intro s hs1 hs2
  obtain ⟨i, rfl⟩ := mem_mkIds hs1
  obtain ⟨j, he⟩ := mem_mkIds hs2
  exact h i j he

/-- `A_…` and `B_…` IDs differ. -/
theorem idA_ne_idB (i j : Nat) : "A_" ++ pad2 i ≠ "B_" ++ pad2 j := by
  intro h
  have hd := congrArg String.data h
  rw [String.data_append, String.data_append] at hd
  have e1 : ("A_" : String).data = ['A', '_'] := rfl
  have e2 : ("B_" : String).data = ['B', '_'] := rfl
  rw [e1, e2] at hd
  simp at hd

/-- `A_…` and `C_YOY_…` IDs differ. -/
theorem idA_ne_idY (i j : Nat) : "A_" ++ pad2 i ≠ "C_YOY_" ++ pad2 j := by
  intro h
  have hd := congrArg String.data h
  rw [String.data_append, String.data_append] at hd
  have e1 : ("A_" : String).data = ['A', '_'] := rfl
  have e2 : ("C_YOY_" : String).data = ['C', '_', 'Y', 'O', 'Y', '_'] := rfl
  rw [e1, e2] at hd
  simp at hd

/-- `A_…` and `C_PEER_…` IDs differ. -/
theorem idA_ne_idP (i j : Nat) : "A_" ++ pad2 i ≠ "C_PEER_" ++ pad2 j := by
  intro h
  have hd := congrArg String.data h
  rw [String.data_append, String.data_append] at hd
  have e1 : ("A_" : String).data = ['A', '_'] := rfl
  have e2 : ("C_PEER_" : String).data = ['C', '_', 'P', 'E', 'E', 'R', '_'] := rfl
  rw [e1, e2] at hd
  simp at hd

/-- `B_…` and `C_YOY_…` IDs differ. -/
theorem idB_ne_idY (i j : Nat) : "B_" ++ pad2 i ≠ "C_YOY_" ++ pad2 j := by
  intro h
  have hd := congrArg String.data h
  rw [String.data_append, String.data_append] at hd
  have e1 : ("B_" : String).data = ['B', '_'] := rfl
  have e2 : ("C_YOY_" : String).data = ['C', '_', 'Y', 'O', 'Y', '_'] := rfl
  rw [e1, e2] at hd
  simp at hd

/-- `B_…` and `C_PEER_…` IDs differ. -/
theorem idB_ne_idP (i j : Nat) : "B_" ++ pad2 i ≠ "C_PEER_" ++ pad2 j := by
  intro h
  have hd := congrArg String.data h
  rw [String.data_append, String.data_append] at hd
  have e1 : ("B_" : String).data = ['B', '_'] := rfl
  have e2 : ("C_PEER_" : String).data = ['C', '_', 'P', 'E', 'E', 'R', '_'] := rfl
  rw [e1, e2] at hd
  simp at hd

/-- `C_YOY_…` and `C_PEER_…` IDs differ. -/
theorem idY_ne_idP (i j : Nat) : "C_YOY_" ++ pad2 i ≠ "C_PEER_" ++ pad2 j := by
  intro h
  have hd := congrArg String.data h
  rw [String.data_append, String.data_append] at hd
  have e1 : ("C_YOY_" : String).data = ['C', '_', 'Y', 'O', 'Y', '_'] := rfl
  have e2 : ("C_PEER_" : String).data = ['C', '_', 'P', 'E', 'E', 'R', '_'] := rfl
  rw [e1, e2] at hd
  simp at hd

/-- The YoY TaskIDs are `C_YOY_01 …` consecutively. -/
theorem pick_yoy_taskids (two : List MRow) (k : Nat) :
    (pick_yoy two k).map TaskRow.TaskID =
      mkIds "C_YOY_" (min k (yoyCandidates two).length) := by
  simp only [pick_yoy]
  rw [map_taskid_mapIdx "C_YOY_" _ _ (fun i x => rfl), List.length_take, sortBy_length]

/-- The Peer TaskIDs are `C_PEER_01 …` consecutively. -/
theorem pick_peers_taskids (ab : List MRow) (k : Nat) (used : List (String × String)) :
    (pick_peers ab k used).map TaskRow.TaskID =
      mkIds "C_PEER_" (pick_peers ab k used).length := by
  simp only [pick_peers]
  by_cases h1 : max k 1 ≤
      (stage1Pairs (ab.filter (fun m => decide ((m.Company, m.Ticker) ∉ used)))).length
  · rw [if_pos h1, map_taskid_mapIdx "C_PEER_" _ _ (fun i x => rfl), List.length_mapIdx]
  · rw [if_neg h1]
    by_cases h2 : (stage1Pairs
        (ab.filter (fun m => decide ((m.Company, m.Ticker) ∉ used)))).length < k
    · rw [if_pos h2, map_taskid_mapIdx "C_PEER_" _ _ (fun i x => rfl), List.length_mapIdx]
    · rw [if_neg h2, map_taskid_mapIdx "C_PEER_" _ _ (fun i x => rfl), List.length_mapIdx]

/-- The TaskID column of the assembled table, block by block. -/
theorem assemble_taskIds (ab two : List MRow) (a b y p : Nat) :
    (assemble ab two a b y p).map TaskRow.TaskID =
      mkIds "A_" (min a ab.length) ++ mkIds "B_" (min b (ab.length - a)) ++
        mkIds "C_YOY_" (min y (yoyCandidates two).length) ++
        mkIds "C_PEER_" ((pick_peers (sortBy abLe ab) p (used_companies two y)).length) := by
  rw [assemble_eq]
  simp only [List.map_append]
  rw [map_taskid_mapIdx "A_" _ _ (fun i x => rfl),
    map_taskid_mapIdx "B_" _ _ (fun i x => rfl),
    pick_yoy_taskids, pick_peers_taskids]
  simp [List.length_take, List.length_drop, sortBy_length]

/-- C2 (amended): all TaskIDs of the output are pairwise distinct, and
within each category the TaskIDs are exactly the category prefix (`A`,
`B`, `C_YOY`, `C_PEER`) followed by an underscore and the decimal index
zero-padded to a minimum width of two digits, starting at 01 and
increasing by 1 with no gaps.  (The claim's "2-digit" is exact only for
indices up to 99: from index 100 on, `f"{i:02d}"` emits three or more
digits — see the counterexample.) -/
theorem C2_taskids (ab two : List MRow) (a b y p : Nat) :
    ((assemble ab two a b y p).map TaskRow.TaskID).Nodup ∧
    ((assemble ab two a b y p).filter
        (fun r => decide (r.Category = "A"))).map TaskRow.TaskID =
      mkIds "A_" (min a ab.length) ∧
    ((assemble ab two a b y p).filter
        (fun r => decide (r.Category = "B"))).map TaskRow.TaskID =
      mkIds "B_" (min b (ab.length - a)) ∧
    ((assemble ab two a b y p).filter
        (fun r => decide (r.Category = "C (YoY)"))).map TaskRow.TaskID =
      mkIds "C_YOY_" (min y (yoyAvailable two)) ∧
    ((assemble ab two a b y p).filter
        (fun r => decide (r.Category = "C (Peer)"))).map TaskRow.TaskID =
      mkIds "C_PEER_" ((pick_peers (sortBy abLe ab) p (used_companies two y)).length) := by
  have hA : ∀ r ∈ ((sortBy abLe ab).take a).mapIdx
      (fun i m => make_row_single ("A_" ++ pad2 (i + 1)) "A" m), r.Category = "A" := by
    intro r hr
    simp only [List.mem_mapIdx] at hr
    obtain ⟨i, hi, hfr⟩ := hr
    rw [← hfr]
    rfl
  have hB : ∀ r ∈ (((sortBy abLe ab).drop a).take b).mapIdx
      (fun i m => make_row_single ("B_" ++ pad2 (i + 1)) "B" m), r.Category = "B" := by
    intro r hr
    simp only [List.mem_mapIdx] at hr
    obtain ⟨i, hi, hfr⟩ := hr
    rw [← hfr]
    rfl
  have hY : ∀ r ∈ pick_yoy two y, r.Category = "C (YoY)" := by
    intro r hr
    obtain ⟨t, ht, id, rfl⟩ := pick_yoy_rows two y r hr
    rfl
  have hP : ∀ r ∈ pick_peers (sortBy abLe ab) p (used_companies two y),
      r.Category = "C (Peer)" := by
    intro r hr
    obtain ⟨j, q, hq, rfl⟩ := pick_peers_rows _ p _ r hr
    rfl
  have filter_cat : ∀ (c : String),
      (∀ r ∈ pick_yoy two y, decide (r.Category = c) = false) →
      (∀ r ∈ pick_peers (sortBy abLe ab) p (used_companies two y),
        decide (r.Category = c) = false) → True := fun _ _ _ => trivial
  clear filter_cat
  refine ⟨?_, ?_, ?_, ?_, ?_⟩
  · rw [assemble_taskIds]
    have nA := mkIds_nodup "A_" (min a ab.length)
    have nB := mkIds_nodup "B_" (min b (ab.length - a))
    have nY := mkIds_nodup "C_YOY_" (min y (yoyCandidates two).length)
    have nP := mkIds_nodup "C_PEER_"
      ((pick_peers (sortBy abLe ab) p (used_companies two y)).length)
    set nAv := min a ab.length
    set nBv := min b (ab.length - a)
    set nYv := min y (yoyCandidates two).length
    set nPv := (pick_peers (sortBy abLe ab) p (used_companies two y)).length
    have dAB : (mkIds "A_" nAv).Disjoint (mkIds "B_" nBv) :=
      mkIds_disjoint (fun i j => idA_ne_idB (i + 1) (j + 1))
    have dAY : (mkIds "A_" nAv).Disjoint (mkIds "C_YOY_" nYv) :=
      mkIds_disjoint (fun i j => idA_ne_idY (i + 1) (j + 1))
    have dAP : (mkIds "A_" nAv).Disjoint (mkIds "C_PEER_" nPv) :=
      mkIds_disjoint (fun i j => idA_ne_idP (i + 1) (j + 1))
    have dBY : (mkIds "B_" nBv).Disjoint (mkIds "C_YOY_" nYv) :=
      mkIds_disjoint (fun i j => idB_ne_idY (i + 1) (j + 1))
    have dBP : (mkIds "B_" nBv).Disjoint (mkIds "C_PEER_" nPv) :=
      mkIds_disjoint (fun i j => idB_ne_idP (i + 1) (j + 1))
    have dYP : (mkIds "C_YOY_" nYv).Disjoint (mkIds "C_PEER_" nPv) :=
      mkIds_disjoint (fun i j => idY_ne_idP (i + 1) (j + 1))
    have nAB := nA.append nB dAB
    have nABY := nAB.append nY (List.disjoint_append_left.mpr ⟨dAY, dBY⟩)
    exact nABY.append nP
      (List.disjoint_append_left.mpr ⟨List.disjoint_append_left.mpr ⟨dAP, dBP⟩, dYP⟩)
  · rw [assemble_eq]
    simp only [List.filter_append]
    rw [List.filter_eq_self.mpr (fun r hr => by simp [hA r hr]),
      List.filter_eq_nil_iff.mpr (fun r hr => by simp [hB r hr]),
      List.filter_eq_nil_iff.mpr (fun r hr => by simp [hY r hr]),
      List.filter_eq_nil_iff.mpr (fun r hr => by simp [hP r hr])]
    simp only [List.append_nil]
    rw [map_taskid_mapIdx "A_" _ _ (fun i x => rfl), List.length_take, sortBy_length]
  · rw [assemble_eq]
    simp only [List.filter_append]
    rw [List.filter_eq_nil_iff.mpr (fun r hr => by simp [hA r hr]),
      List.filter_eq_self.mpr (fun r hr => by simp [hB r hr]),
      List.filter_eq_nil_iff.mpr (fun r hr => by simp [hY r hr]),
      List.filter_eq_nil_iff.mpr (fun r hr => by simp [hP r hr])]
    simp only [List.append_nil, List.nil_append]
    rw [map_taskid_mapIdx "B_" _ _ (fun i x => rfl), List.length_take, List.length_drop,
      sortBy_length]
  · rw [assemble_eq]
    simp only [List.filter_append]
    rw [List.filter_eq_nil_iff.mpr (fun r hr => by simp [hA r hr]),
      List.filter_eq_nil_iff.mpr (fun r hr => by simp [hB r hr]),
      List.filter_eq_self.mpr (fun r hr => by simp [hY r hr]),
      List.filter_eq_nil_iff.mpr (fun r hr => by simp [hP r hr])]
    simp only [List.append_nil, List.nil_append]
    rw [pick_yoy_taskids]
    rfl
  · rw [assemble_eq]
    simp only [List.filter_append]
    rw [List.filter_eq_nil_iff.mpr (fun r hr => by simp [hA r hr]),
      List.filter_eq_nil_iff.mpr (fun r hr => by simp [hB r hr]),
      List.filter_eq_nil_iff.mpr (fun r hr => by simp [hY r hr]),
      List.filter_eq_self.mpr (fun r hr => by simp [hP r hr])]
    simp only [List.nil_append]
    rw [pick_peers_taskids]

/-- C2 counterexample: with 100 identical AB rows and `aCount = 100` the
last A TaskID is `A_100`, whose index part has three digits — `f"{i:02d}"`
zero-pads to a MINIMUM of two digits, it does not keep the index 2-digit. -/
theorem C2_cex :
    ((assemble (List.replicate 100 rowAlpha) [] 100 0 0 0).map TaskRow.TaskID)[99]? =
      some "A_100" ∧ ("A_100".drop 2).length ≠ 2 := by
  decide

/-! ### C1 — output row count (amended theorem and witness) -/

/-- `pick_yoy` emits the available candidates, capped at `k`. -/
theorem pick_yoy_length (two : List MRow) (k : Nat) :
    (pick_yoy two k).length = min k (yoyCandidates two).length := by
  simp [pick_yoy, sortBy_length, yoyAvailable]

/-- For requested count at least 1, `pick_peers` emits the available pairs
(Stage-1 then Stage-2), capped at `k`. -/
theorem pick_peers_length (ab : List MRow) (k : Nat) (used : List (String × String))
    (hk : 1 ≤ k) :
    (pick_peers ab k used).length = min k (peerAvailable ab used) := by
  have hmax : max k 1 = k := Nat.max_eq_left hk
  simp only [pick_peers, peerAvailable, hmax]
  split_ifs with h1 h2
  · simp only [List.length_mapIdx, List.length_take]
    omega
  · simp only [List.length_mapIdx, List.length_take, List.length_append]
  · omega

/-- C1 (amended): for `peerCount ≥ 1`, the assembler's output row count is
the sum over the four categories of the available rows capped at the
requested count — A gets `min aCount |AB|`, B the next `min bCount (|AB| −
aCount)`, YoY `min yoyCount` of the YoY candidates, Peer `min peerCount`
of the Stage-1 plus Stage-2 pair supply — and in particular never exceeds
`aCount + bCount + yoyCount + peerCount`.  (For `peerCount = 0` the claim
fails, see the counterexample: Stage 1's early-return check `len(out) >= k`
fires after the first append.) -/
theorem C1_row_count (ab two : List MRow) (a b y p : Nat) (hp : 1 ≤ p) :
    (assemble ab two a b y p).length =
      min a ab.length + min b (ab.length - a) + min y (yoyAvailable two) +
        min p (peerAvailable (sortBy abLe ab) (used_companies two y)) ∧
    (assemble ab two a b y p).length ≤ a + b + y + p := by
  have h1 : (assemble ab two a b y p).length =
      min a ab.length + min b (ab.length - a) + (pick_yoy two y).length +
        (pick_peers (sortBy abLe ab) p (used_companies two y)).length := by
    simp only [assemble, used_companies, List.length_append, List.length_mapIdx,
      List.length_take, List.length_drop, sortBy_length]
  rw [h1, pick_yoy_length, pick_peers_length _ _ _ hp]
  constructor
  · rfl
  · have := Nat.min_le_left a ab.length
    have := Nat.min_le_left b (ab.length - a)
    have := Nat.min_le_left y (yoyCandidates two).length
    have := Nat.min_le_left p (peerAvailable (sortBy abLe ab) (used_companies two y))
    omega

/-- Witness for C1 at a concrete input with `peerCount = 1`. -/
theorem C1_witness :
    1 ≤ 1 ∧
    ((assemble [rowAlpha] [] 1 0 0 1).length =
        min 1 ([rowAlpha] : List MRow).length +
          min 0 (([rowAlpha] : List MRow).length - 1) + min 0 (yoyAvailable []) +
          min 1 (peerAvailable (sortBy abLe [rowAlpha]) (used_companies [] 0)) ∧
      (assemble [rowAlpha] [] 1 0 0 1).length ≤ 1 + 0 + 0 + 1) :=
  ⟨le_refl 1, C1_row_count [rowAlpha] [] 1 0 0 1 (le_refl 1)⟩

/-- Witness for C6 at a concrete oracle: success on the second attempt
with `sleep_min = 1`, `sleep_max = 2`, `maxFetchRetries = 3`. -/
theorem C6_witness :
    (∀ i : Nat, 0 ≤ (fun _ : Nat => (1/2 : ℚ)) i ∧ (fun _ : Nat => (1/2 : ℚ)) i < 1) ∧
    (1 : ℚ) ≤ 2 ∧
    (download_html_with_retries (fun i => decide (i = 2)) (fun _ => (1/2 : ℚ)) 1 2 3).attempts
      ≤ 3 + 1 :=
  ⟨fun _ => ⟨by norm_num, by norm_num⟩, by norm_num,
    (C6_retry (fun i => decide (i = 2)) (fun _ => (1/2 : ℚ)) 1 2 3
      (fun _ => ⟨by norm_num, by norm_num⟩) (by norm_num)).1⟩

end DataCollection
